import Mathlib

/-!
# MiddlewareSimulator: the EPG record parser and its queries

A shallow embedding of `Parser.cpp` (`Parser::parseDateTimeString`,
`Parser::parseDataFromFile`, `Parser::getChannels`, `Parser::getProgramsForChannel`,
`Parser::getProgramsOnNow`, `Parser::getProgramsForTimeRange`).

* `std::string` is a list of characters.
* An input stream (`std::ifstream`, `std::stringstream`) is the list of unread characters
  together with its `eofbit` and `failbit`.
* `std::map<int, std::vector<ProgramInfo>>` is an association list with unique keys.
* The C and C++ library calls whose result depends on the machine the program runs on
  (`std::get_time`, `std::mktime`) are the two fields of a `Host`; the statements about the
  loader and the queries hold for all hosts, those about the text of a date and time are stated
  for the `std::get_time` of the reference host.
* Text written to `std::cout` and `std::cerr` is not part of the state.
-/

namespace MiddlewareSimulator

/-- A `std::string`. -/
abbrev Str := List Char

/-! ## Data model -/

/-- Modelled from the spec: `ChannelInfo.h` is not among the sources. The spec gives a channel an
integer identifier and a display name; `Parser.cpp` assigns `channelId` (from `std::stoi`) and
`channelName` (a `std::string`). -/
structure ChannelInfo where
  channelId : Int
  channelName : Str
deriving DecidableEq, Repr

/-- The struct `ProgramInfo` of `ProgramInfo.h`. -/
structure ProgramInfo where
  programId : Int
  programName : Str
  description : Str
  startTimeMillis : Int
  endTimeMillis : Int
deriving DecidableEq, Repr

/-- The private members of `class Parser`: `channels` and `programsByChannelId`. The map is kept
as an association list; the program only uses `find`, `operator[]` and `clear` on it, so the
order of the keys is never observed. -/
structure Parser where
  channels : List ChannelInfo
  programsByChannelId : List (Int × List ProgramInfo)
deriving DecidableEq, Repr

/-- The state of `Parser() = default`, and the state after both `clear()` calls. -/
def Parser.empty : Parser := ⟨[], []⟩

/-- The call `programsByChannelId.find(k)`: `none` stands for `end()`. -/
def mapFind : List (Int × List ProgramInfo) → Int → Option (List ProgramInfo)
  | [], _ => none
  | (k', v) :: rest, k => if k' = k then some v else mapFind rest k

/-- The statement `programsByChannelId[k].push_back(x)`: `operator[]` inserts an empty vector for
a key that is absent, then the program is appended to the vector of that key. -/
def mapPushBack : List (Int × List ProgramInfo) → Int → ProgramInfo → List (Int × List ProgramInfo)
  | [], k, x => [(k, [x])]
  | (k', v) :: rest, k, x =>
    if k' = k then (k', v ++ [x]) :: rest else (k', v) :: mapPushBack rest k x

/-! ## Input streams and `std::getline` -/

/-- An input stream: the characters not yet read and the two state bits `std::getline` sets. -/
structure IStream where
  buf : Str
  eofbit : Bool
  failbit : Bool
deriving DecidableEq, Repr

/-- A stream freshly opened on the given characters. -/
def IStream.open (s : Str) : IStream := ⟨s, false, false⟩

/-- Characters up to the first delimiter, and what follows the delimiter; `none` when the end
of the characters is reached without meeting the delimiter. -/
def takeUntil (delim : Char) : Str → Str × Option Str
  | [] => ([], none)
  | c :: cs =>
    if c = delim then ([], some cs)
    else ((c :: (takeUntil delim cs).1), (takeUntil delim cs).2)

/-- The call `std::getline(stream, str, delim)`. The first component is `some str` when the
stream converts to `true` after the call and `none` when it converts to `false` (`str` is then
empty).
* A stream that is not `good()` gets `failbit` and nothing is read.
* With no character left, nothing is extracted: `eofbit` and `failbit` are set.
* Otherwise characters are extracted up to the delimiter, which is extracted and dropped; when
  the end is reached first, `eofbit` is set and the call still succeeds. -/
def getline (s : IStream) (delim : Char) : Option Str × IStream :=
  if s.eofbit || s.failbit then (none, { s with failbit := true })
  else
    match s.buf with
    | [] => (none, { s with eofbit := true, failbit := true })
    | c :: cs =>
      match takeUntil delim (c :: cs) with
      | (a, some rest) => (some a, { s with buf := rest })
      | (a, none) => (some a, { s with buf := [], eofbit := true })

/-! ## `std::stoi` -/

/-- The C locale's `isspace`. -/
def isspace (c : Char) : Bool :=
  c = ' ' || c = '\t' || c = '\n' || c = Char.ofNat 11 || c = Char.ofNat 12 || c = '\r'

/-- The C locale's `isdigit`. -/
def isdigit (c : Char) : Bool := decide ('0'.toNat ≤ c.toNat ∧ c.toNat ≤ '9'.toNat)

/-- The value of a run of decimal digits, most significant first. -/
def digitsValue (ds : Str) : Nat := ds.foldl (fun acc c => 10 * acc + (c.toNat - '0'.toNat)) 0

/-- The least `int`. -/
def INT_MIN : Int := -2147483648

/-- The greatest `int`. -/
def INT_MAX : Int := 2147483647

/-- The call `std::stoi(str)` (base 10, no position argument): `strtol` skips leading white
space, takes an optional sign and then the longest run of digits; whatever follows the digits
is ignored. `none` stands for the two exceptions: `std::invalid_argument` when there is no
digit to convert, `std::out_of_range` when the value is not an `int`. -/
def stoi (str : Str) : Option Int :=
  let s1 := str.dropWhile isspace
  let neg := s1.head? = some '-'
  let s2 := if s1.head? = some '-' ∨ s1.head? = some '+' then s1.tail else s1
  let ds := s2.takeWhile isdigit
  if ds = [] then none
  else
    let v : Int := if neg then -(digitsValue ds : Int) else (digitsValue ds : Int)
    if INT_MIN ≤ v ∧ v ≤ INT_MAX then some v else none

/-! ## The time codec -/

/-- The fields of `std::tm` that `std::get_time` fills for `%Y-%m-%d %H:%M:%S`; the struct is
zero-initialised (`std::tm t{}`), so the other fields are 0. -/
structure Tm where
  tm_sec : Int
  tm_min : Int
  tm_hour : Int
  tm_mday : Int
  tm_mon : Int
  tm_year : Int
deriving DecidableEq, Repr

/-- The library calls of `parseDateTimeString` whose result depends on the C++ library and on
the time zone of the machine.
* `get_time str` is `ss >> std::get_time(&t, "%Y-%m-%d %H:%M:%S")` on a stream over `str`:
  `none` when `ss.fail()` holds afterwards, else the `std::tm` read.
* `mktime t` is `std::mktime(&t)`, a `time_t`; `-1` reports failure. -/
structure Host where
  get_time : Str → Option Tm
  mktime : Tm → Int

/-- A 64-bit two's complement value: the `long long` a mathematical integer is stored as. -/
def wrapInt64 (x : Int) : Int := (x + 2 ^ 63) % 2 ^ 64 - 2 ^ 63

/-- The method `Parser::parseDateTimeString`: epoch milliseconds, or the sentinel 0. The
product `time_seconds * 1000` is a `long long`. -/
def parseDateTimeString (h : Host) (dateTimeStr : Str) : Int :=
  match h.get_time dateTimeStr with
  | none => 0
  | some t =>
    let time_seconds := h.mktime t
    if time_seconds = -1 then 0
    else wrapInt64 (time_seconds * 1000)

/-! ### A reference host

The host used to evaluate the parser on concrete files: its local time zone is UTC, and its
`std::get_time` is that of the GNU C++ library (libstdc++ 12, `time_get::get` in
`bits/locale_facets_nonio.tcc` and `operator>>` in `iomanip`).
* The sentry of `operator>>` skips leading white space; at the end of the input it sets
  `failbit`.
* A number is read as at most the field's width in digits, at least one, and its range is
  checked; `%d` first skips one white-space character.
* `-` and `:` are matched literally; the blank of the format matches any run of white space,
  also an empty one.
* When the input ends right after a number, reading stops with `eofbit` alone: the fields read
  so far are kept, the others stay 0. When it ends anywhere else before the format does,
  `failbit` is set.
* Characters after the seconds are left unread. -/

/-- Reads a number of at most `len` digits, at least one: its value and the unread rest. -/
def readNum (len : Nat) (s : Str) : Option (Nat × Str) :=
  let ds := (s.take len).takeWhile isdigit
  if ds = [] then none else some (digitsValue ds, s.drop ds.length)

/-- Matches one literal character of the format. -/
def expectChar (c : Char) : Str → Option Str
  | [] => none
  | d :: rest => if d = c then some rest else none

/-- The reference host's `ss >> std::get_time(&t, "%Y-%m-%d %H:%M:%S")` on the zero-initialised
`std::tm t{}`: `none` when `ss.fail()` holds afterwards. Each `if s = [] then some ...` is the
exit of the loop of `time_get::get` when the input ended with the number just read; a number
or a separator wanted at the end of the input is not there, so the call fails. -/
def utcGetTime (s : Str) : Option Tm :=
  let s := s.dropWhile isspace
  match readNum 4 s with
  | none => none
  | some (year, s) =>
  if s = [] then
    some { tm_sec := 0, tm_min := 0, tm_hour := 0, tm_mday := 0,
           tm_mon := 0, tm_year := (year : Int) - 1900 } else
  match expectChar '-' s with
  | none => none
  | some s =>
  match readNum 2 s with
  | none => none
  | some (mon, s) =>
  if ¬ (1 ≤ mon ∧ mon ≤ 12) then none else
  if s = [] then
    some { tm_sec := 0, tm_min := 0, tm_hour := 0, tm_mday := 0,
           tm_mon := (mon : Int) - 1, tm_year := (year : Int) - 1900 } else
  match expectChar '-' s with
  | none => none
  | some s =>
  match readNum 2 (if s.head?.any isspace then s.tail else s) with
  | none => none
  | some (mday, s) =>
  if ¬ (1 ≤ mday ∧ mday ≤ 31) then none else
  if s = [] then
    some { tm_sec := 0, tm_min := 0, tm_hour := 0, tm_mday := mday,
           tm_mon := (mon : Int) - 1, tm_year := (year : Int) - 1900 } else
  match readNum 2 (s.dropWhile isspace) with
  | none => none
  | some (hour, s) =>
  if ¬ (hour ≤ 23) then none else
  if s = [] then
    some { tm_sec := 0, tm_min := 0, tm_hour := hour, tm_mday := mday,
           tm_mon := (mon : Int) - 1, tm_year := (year : Int) - 1900 } else
  match expectChar ':' s with
  | none => none
  | some s =>
  match readNum 2 s with
  | none => none
  | some (min, s) =>
  if ¬ (min ≤ 59) then none else
  if s = [] then
    some { tm_sec := 0, tm_min := min, tm_hour := hour, tm_mday := mday,
           tm_mon := (mon : Int) - 1, tm_year := (year : Int) - 1900 } else
  match expectChar ':' s with
  | none => none
  | some s =>
  match readNum 2 s with
  | none => none
  | some (sec, _) =>
  if ¬ (sec ≤ 60) then none else
  some { tm_sec := sec, tm_min := min, tm_hour := hour, tm_mday := mday,
         tm_mon := (mon : Int) - 1, tm_year := (year : Int) - 1900 }

/-- Days from 1970-01-01 to the given day of the proleptic Gregorian calendar
(`m` from 1 to 12). -/
def daysFromCivil (y m d : Int) : Int :=
  let y1 := if m ≤ 2 then y - 1 else y
  let era := y1 / 400
  let yoe := y1 - era * 400
  let mp := if m > 2 then m - 3 else m + 9
  let doy := (153 * mp + 2) / 5 + d - 1
  let doe := yoe * 365 + yoe / 4 - yoe / 100 + doy
  era * 146097 + doe - 719468

/-- The reference host's `std::mktime`: the fields are taken as UTC; months outside 0..11 carry
into the year, days, hours, minutes and seconds carry linearly. -/
def utcMktime (t : Tm) : Int :=
  let y := t.tm_year + 1900 + t.tm_mon / 12
  let m := t.tm_mon % 12 + 1
  (daysFromCivil y m 1 + (t.tm_mday - 1)) * 86400 + t.tm_hour * 3600 + t.tm_min * 60 + t.tm_sec

/-- The reference host. -/
def utcHost : Host := ⟨utcGetTime, utcMktime⟩

/-! ## The record decoder -/

/-- The `CH` branch of `parseDataFromFile`: `ssRecord` is the stream over the line, after the
record type was read from it. -/
def parseCH (ssRecord : IStream) (p : Parser) : Parser :=
  let r1 := getline ssRecord '|'
  let r2 := getline r1.2 '|'
  let idStr := r1.1.getD []
  let nameStr := r2.1.getD []
  let partsRead : Nat := (if r1.1.isSome then 1 else 0) + (if r2.1.isSome then 1 else 0)
  if partsRead = 2 then
    match stoi idStr with
    | some channelId =>
      { p with channels := p.channels ++ [{ channelId := channelId, channelName := nameStr }] }
    | none => p
  else p

/-- The `PG` branch of `parseDataFromFile`. The two `std::stoi` calls come first, as in the
`try` block: when either throws, nothing is stored. -/
def parsePG (h : Host) (ssRecord : IStream) (p : Parser) : Parser :=
  let r1 := getline ssRecord '|'
  let r2 := getline r1.2 '|'
  let r3 := getline r2.2 '|'
  let r4 := getline r3.2 '|'
  let r5 := getline r4.2 '|'
  let r6 := getline r5.2 '|'
  let channelIdStr := r1.1.getD []
  let programIdStr := r2.1.getD []
  let startTimeStr := r3.1.getD []
  let endTimeStr := r4.1.getD []
  let nameStr := r5.1.getD []
  let descStr := r6.1.getD []
  let partsRead : Nat :=
    (if r1.1.isSome then 1 else 0) + (if r2.1.isSome then 1 else 0)
      + (if r3.1.isSome then 1 else 0) + (if r4.1.isSome then 1 else 0)
      + (if r5.1.isSome then 1 else 0) + (if r6.1.isSome then 1 else 0)
  if partsRead = 6 then
    match stoi channelIdStr with
    | none => p
    | some parsedChannelId =>
      match stoi programIdStr with
      | none => p
      | some programId =>
        let currentProgram : ProgramInfo :=
          { programId := programId
            programName := nameStr
            description := descStr
            startTimeMillis := parseDateTimeString h startTimeStr
            endTimeMillis := parseDateTimeString h endTimeStr }
        if currentProgram.startTimeMillis > 0
            ∧ currentProgram.endTimeMillis > currentProgram.startTimeMillis then
          { p with programsByChannelId :=
              mapPushBack p.programsByChannelId parsedChannelId currentProgram }
        else p
  else p

/-- The body of the `while` loop of `parseDataFromFile` for one line `recordSegment`. -/
def parseRecord (h : Host) (p : Parser) (recordSegment : Str) : Parser :=
  if recordSegment.isEmpty || recordSegment.head? = some '#' then p
  else
    let r := getline (IStream.open recordSegment) '|'
    match r.1 with
    | none => p
    | some recordType =>
      if recordType = ['C', 'H'] then parseCH r.2 p
      else if recordType = ['P', 'G'] then parsePG h r.2 p
      else p

/-- The loop `while (std::getline(inputFile, recordSegment))`: the first argument bounds the
number of iterations. -/
def parseLoop (h : Host) : Nat → IStream → Parser → Parser
  | 0, _, p => p
  | fuel + 1, inputFile, p =>
    match getline inputFile '\n' with
    | (none, _) => p
    | (some recordSegment, inputFile') => parseLoop h fuel inputFile' (parseRecord h p recordSegment)

/-- The method `Parser::parseDataFromFile`, from the state `p` of the parser it is called on.
The file is `none` when it cannot be opened and its characters otherwise. Both containers are
cleared first. Each iteration of the loop reads at least one character, so one more iteration
than there are characters ends the loop. -/
def parseDataFromFile (h : Host) (p : Parser) (file : Option Str) : Bool × Parser :=
  let p1 : Parser := { p with channels := [] }
  let p2 : Parser := { p1 with programsByChannelId := [] }
  match file with
  | none => (false, p2)
  | some content => (true, parseLoop h (content.length + 1) (IStream.open content) p2)

/-! ## Queries -/

/-- The method `Parser::getChannels`. -/
def getChannels (p : Parser) : List ChannelInfo := p.channels

/-- The method `Parser::getProgramsForChannel`. -/
def getProgramsForChannel (p : Parser) (channelId : Int) : List ProgramInfo :=
  match mapFind p.programsByChannelId channelId with
  | some programs => programs
  | none => []

/-- The method `Parser::getProgramsOnNow`. -/
def getProgramsOnNow (p : Parser) (channelId : Int) (currentTimestampMillis : Int) :
    List ProgramInfo :=
  match mapFind p.programsByChannelId channelId with
  | some programs =>
    programs.foldl
      (fun onNowPrograms program =>
        if program.startTimeMillis ≤ currentTimestampMillis
            ∧ currentTimestampMillis < program.endTimeMillis then
          onNowPrograms ++ [program]
        else onNowPrograms)
      []
  | none => []

/-- The method `Parser::getProgramsForTimeRange`. -/
def getProgramsForTimeRange (p : Parser) (channelId : Int)
    (rangeStartMillis rangeEndMillis : Int) : List ProgramInfo :=
  if rangeStartMillis ≥ rangeEndMillis then []
  else
    match mapFind p.programsByChannelId channelId with
    | some programs =>
      programs.foldl
        (fun overlappingPrograms program =>
          if program.startTimeMillis < rangeEndMillis
              ∧ program.endTimeMillis > rangeStartMillis then
            overlappingPrograms ++ [program]
          else overlappingPrograms)
        []
    | none => []

/-! ## Vocabulary of the specification -/

/-- The strings that successive `std::getline(stream, str, delim)` calls extract from a fresh
stream over the given characters, until a call fails: the pieces between delimiters, where a
delimiter at the very end does not open a further (empty) piece. -/
def pieces (delim : Char) : Str → List Str
  | [] => []
  | c :: cs =>
    if c = delim then [] :: pieces delim cs
    else
      match pieces delim cs with
      | [] => [[c]]
      | f :: fs => (c :: f) :: fs

/-- The lines of a text file. -/
def fileLines (content : Str) : List Str := pieces '\n' content

/-- All the pieces a text falls into at a separator, empty ones included: one more than there
are separators. -/
def splitAll (sep : Char) : Str → List Str
  | [] => [[]]
  | c :: cs =>
    if c = sep then [] :: splitAll sep cs
    else
      match splitAll sep cs with
      | [] => [[c]]
      | f :: fs => (c :: f) :: fs

/-- The type tag of a record line: the text before the first `|`. -/
def recordTag (line : Str) : Str := (splitAll '|' line).headD []

/-- The `|`-separated fields of a record line after its tag. -/
def recordFields (line : Str) : List Str := (splitAll '|' line).tail

/-- The line `CH|<identifier>|<name>`. -/
def chLine (idField name : Str) : Str := ['C', 'H', '|'] ++ idField ++ '|' :: name

/-- The line `PG|<channel>|<program>|<start>|<end>|<name>|<description>`. -/
def pgLine (c p s e name desc : Str) : Str :=
  ['P', 'G', '|'] ++ c ++ '|' :: (p ++ '|' :: (s ++ '|' :: (e ++ '|' :: (name ++ '|' :: desc))))

/-- A text that is, as a whole, an optionally signed decimal integer within `int` range, and
its value. -/
def wholeInt (s : Str) : Option Int :=
  let ds := if s.head? = some '-' ∨ s.head? = some '+' then s.tail else s
  let v : Int := if s.head? = some '-' then -(digitsValue ds : Int) else (digitsValue ds : Int)
  if ds ≠ [] ∧ (∀ c ∈ ds, isdigit c = true) ∧ INT_MIN ≤ v ∧ v ≤ INT_MAX then some v else none

/-- A text that starts with an integer the way `strtol` reads one: white space, an optional
sign, a non-empty run of digits that ends where the next character is not a digit; `v` is the
signed value of the run and lies within `int` range. What follows the run is arbitrary. -/
def IntPrefix (fld : Str) (v : Int) : Prop :=
  ∃ ws sign ds rest : Str,
    fld = ws ++ (sign ++ (ds ++ rest)) ∧ (∀ c ∈ ws, isspace c = true)
      ∧ (sign = [] ∨ sign = ['+'] ∨ sign = ['-'])
      ∧ ds ≠ [] ∧ (∀ c ∈ ds, isdigit c = true) ∧ (∀ c, rest.head? = some c → isdigit c = false)
      ∧ v = (if sign = ['-'] then -(digitsValue ds : Int) else (digitsValue ds : Int))
      ∧ INT_MIN ≤ v ∧ v ≤ INT_MAX

/-- The condition a stored program passes at a point query: `start <= t < end`. -/
def airsAt (t : Int) (program : ProgramInfo) : Bool :=
  decide (program.startTimeMillis ≤ t ∧ t < program.endTimeMillis)

/-- The overlap test of a range query: `start < rangeEnd` and `end > rangeStart`. -/
def overlaps (rangeStart rangeEnd : Int) (program : ProgramInfo) : Bool :=
  decide (program.startTimeMillis < rangeEnd ∧ program.endTimeMillis > rangeStart)

/-! ## The decoder as a function of the pieces of a line -/

/-- What a stream still yields to `getline` calls with the given delimiter: the pieces of its
unread characters while it is `good()`, nothing once `eofbit` or `failbit` is set. -/
def Yields (delim : Char) (s : IStream) (L : List Str) : Prop :=
  (s.eofbit = false ∧ s.failbit = false ∧ pieces delim s.buf = L)
    ∨ ((s.eofbit = true ∨ s.failbit = true) ∧ L = [])

/-- What a `CH` line stores, from the pieces that follow its tag. -/
def storeCH (p : Parser) : List Str → Parser
  | idStr :: nameStr :: _ =>
    match stoi idStr with
    | some channelId =>
      { p with channels := p.channels ++ [{ channelId := channelId, channelName := nameStr }] }
    | none => p
  | _ => p

/-- What a `PG` line stores, from the pieces that follow its tag. -/
def storePG (h : Host) (p : Parser) : List Str → Parser
  | channelIdStr :: programIdStr :: startTimeStr :: endTimeStr :: nameStr :: descStr :: _ =>
    match stoi channelIdStr with
    | none => p
    | some parsedChannelId =>
      match stoi programIdStr with
      | none => p
      | some programId =>
        let currentProgram : ProgramInfo :=
          { programId := programId
            programName := nameStr
            description := descStr
            startTimeMillis := parseDateTimeString h startTimeStr
            endTimeMillis := parseDateTimeString h endTimeStr }
        if parseDateTimeString h startTimeStr > 0
            ∧ parseDateTimeString h endTimeStr > parseDateTimeString h startTimeStr then
          { p with programsByChannelId :=
              mapPushBack p.programsByChannelId parsedChannelId currentProgram }
        else p
  | _ => p

/-- What a line stores, from its pieces. -/
def storeRecord (h : Host) (p : Parser) (line : Str) : Parser :=
  if line.head? = some '#' then p
  else
    match pieces '|' line with
    | [] => p
    | tag :: fields =>
      if tag = ['C', 'H'] then storeCH p fields
      else if tag = ['P', 'G'] then storePG h p fields
      else p

/-! ## Sample inputs

The files that `main` writes for the self-test (`main.cpp`, lines 105 to 109) and the program
they store on the reference host. -/

/-- The file `test_data_epg_query.txt`. -/
def epgQueryFile : Str :=
  "CH|1|RangeTest\nPG|1|101|2025-04-16 09:00:00|2025-04-16 10:00:00|InRange|DescInRange".toList

/-- The program of `test_data_epg_query.txt`: 09:00 to 10:00 on 2025-04-16, UTC. -/
def epgQueryProgram : ProgramInfo :=
  { programId := 101
    programName := "InRange".toList
    description := "DescInRange".toList
    startTimeMillis := 1744794000000
    endTimeMillis := 1744797600000 }

/-- A file of three valid `CH` lines, two of them with the same identifier. -/
def threeChannelsFile : Str := "CH|10|Valid Name\nCH|10|Second\nCH|-3|Third\n".toList

/-- The file `test_data_valid_pg.txt`. -/
def validPgFile : Str :=
  "CH|1|Chan1\nPG|1|101|2025-01-01 10:00:00|2025-01-01 11:00:00|Prog1|Desc1".toList

/-- A `PG` line whose end is before its start. -/
def invertedPgLine : Str :=
  pgLine "1".toList "102".toList "2025-01-01 11:00:00".toList "2025-01-01 10:00:00".toList
    "Inverted".toList "Desc".toList

/-- A `CH` line with three fields after the tag. -/
def longChLine : Str := "CH|1|a|b".toList

/-- A `PG` line with seven fields after the tag. -/
def longPgLine : Str :=
  "PG|1|101|2025-01-01 10:00:00|2025-01-01 11:00:00|Prog1|Desc1|extra".toList

/-- The file `test_data_incomplete.txt`: a `PG` line with two fields. -/
def incompleteFile : Str := "PG|1|102".toList

/-- The file `test_data_invalid_id.txt`: a `CH` line whose identifier field is `abc`. -/
def invalidIdFile : Str := "CH|abc|Invalid".toList

/-- A file of one valid `CH` line, one `PG` line with two fields and one `PG` line whose end is
before its start. -/
def mixedFile : Str :=
  "PG|1|102\nCH|1|Chan1\nPG|1|102|2025-01-01 11:00:00|2025-01-01 10:00:00|Inverted|Desc".toList

/-- The file `test_data_valid_ch.txt`. -/
def validChFile : Str := "CH|10|Valid Name".toList

/-- A line that the loop skips: it is empty or its first character is `#`. -/
def isSkipped (line : Str) : Bool := line.isEmpty || decide (line.head? = some '#')

/-- A file of one `CH` line and one `PG` line. -/
def plainFile : Str :=
  "CH|1|Chan1\nPG|1|101|2025-01-01 10:00:00|2025-01-01 11:00:00|Prog1|Desc1\n".toList

/-- The lines of the previous file among empty lines and comments, one of them the text of a
record after `#`. -/
def commentedFile : Str :=
  ("#CH|9|X\n\nCH|1|Chan1\n# the programs\n\n"
    ++ "PG|1|101|2025-01-01 10:00:00|2025-01-01 11:00:00|Prog1|Desc1\n\n#end").toList

/-- A file whose `PG` line names channel 7 and whose only `CH` line names channel 1. -/
def orphanFile : Str :=
  "CH|1|Chan1\nPG|7|101|2025-01-01 10:00:00|2025-01-01 11:00:00|Orphan|Desc".toList

/-- The previous file after a `CH` line for channel 7. -/
def adoptedFile : Str :=
  "CH|7|Seven\nCH|1|Chan1\nPG|7|101|2025-01-01 10:00:00|2025-01-01 11:00:00|Orphan|Desc".toList

/-! ## `formatTime` and the zones of the host

The function `formatTime` of `main.cpp`. `std::gmtime` and `std::put_time` do not depend on the
time zone of the host; what depends on the C++ library is the tick of
`std::chrono::system_clock`, in which the `time_point` built from the milliseconds counts. -/

/-- The day of the proleptic Gregorian calendar (year, month from 1 to 12, day of the month)
that lies the given number of days after 1970-01-01. -/
def civilFromDays (z : Int) : Int × Int × Int :=
  let z1 := z + 719468
  let era := z1 / 146097
  let doe := z1 - era * 146097
  let yoe := (doe - doe / 1460 + doe / 36524 - doe / 146096) / 365
  let doy := doe - (365 * yoe + yoe / 4 - yoe / 100)
  let mp := (5 * doy + 2) / 153
  let d := doy - (153 * mp + 2) / 5 + 1
  let m := if mp < 10 then mp + 3 else mp - 9
  (yoe + era * 400 + (if m ≤ 2 then 1 else 0), m, d)

/-- The call `std::gmtime(&timeT)`: the UTC calendar time of a `time_t`; `none` stands for the
null pointer, returned when the year does not fit the `int` field `tm_year`. -/
def gmtime (timeT : Int) : Option Tm :=
  let days := timeT / 86400
  let rem := timeT % 86400
  let ymd := civilFromDays days
  if INT_MIN ≤ ymd.1 - 1900 ∧ ymd.1 - 1900 ≤ INT_MAX then
    some { tm_sec := rem % 60, tm_min := rem / 60 % 60, tm_hour := rem / 3600,
           tm_mday := ymd.2.2, tm_mon := ymd.2.1 - 1, tm_year := ymd.1 - 1900 }
  else none

/-- The digits of a number, most significant first, after the digits already in `acc`; the first
argument bounds the number of digits. -/
def decimalAux : Nat → Nat → Str → Str
  | 0, _, acc => acc
  | fuel + 1, n, acc =>
    if n < 10 then Nat.digitChar n :: acc
    else decimalAux fuel (n / 10) (Nat.digitChar (n % 10) :: acc)

/-- A number in decimal, as `%Y` writes a year: no padding. Twenty digits hold every 64-bit
value. -/
def decimal (n : Nat) : Str := decimalAux 20 n []

/-- A number below 100 in two digits, as `%m`, `%d`, `%H`, `%M` and `%S` write their field. -/
def pad2 (n : Nat) : Str := [Nat.digitChar (n / 10 % 10), Nat.digitChar (n % 10)]

/-- The text `ss << std::put_time(utcTm, "%Y-%m-%d %H:%M:%S")` writes. -/
def put_time (t : Tm) : Str :=
  (if t.tm_year + 1900 < 0 then '-' :: decimal (-(t.tm_year + 1900)).toNat
    else decimal (t.tm_year + 1900).toNat)
    ++ '-' :: (pad2 (t.tm_mon + 1).toNat ++ '-' :: (pad2 t.tm_mday.toNat
    ++ ' ' :: (pad2 t.tm_hour.toNat ++ ':' :: (pad2 t.tm_min.toNat
    ++ ':' :: pad2 t.tm_sec.toNat))))

/-- The function `formatTime` of `main.cpp`. The first argument is the number of ticks of
`std::chrono::system_clock` in a millisecond (1000000 with libstdc++, 10000 with the Microsoft
library, 1000 with libc++): the `time_point` holds `timeMillis` in ticks, a 64-bit count, and
`to_time_t` divides the count by the ticks of a second, rounding towards zero. -/
def formatTime (ticksPerMilli : Int) (timeMillis : Int) : Str :=
  if timeMillis ≤ 0 then ['N', '/', 'A']
  else
    let timePoint := wrapInt64 (timeMillis * ticksPerMilli)
    let timeT := Int.tdiv timePoint (ticksPerMilli * 1000)
    match gmtime timeT with
    | none => "Invalid Time".toList
    | some utcTm => put_time utcTm

/-- A host like the reference host whose local time is `offset` seconds ahead of UTC all year:
its `std::mktime` takes the fields as local time. -/
def zoneHost (offset : Int) : Host := ⟨utcGetTime, fun t => utcMktime t - offset⟩

/-! ### Texts of the form `YYYY-MM-DD HH:MM:SS` -/

/-- A number below 10000 in four digits. -/
def pad4 (n : Nat) : Str :=
  [Nat.digitChar (n / 1000 % 10), Nat.digitChar (n / 100 % 10), Nat.digitChar (n / 10 % 10),
    Nat.digitChar (n % 10)]

/-- The text `YYYY-MM-DD HH:MM:SS` of a date and a time of day. -/
def dateTimeText (y mo d hh mi ss : Nat) : Str :=
  pad4 y ++ '-' :: (pad2 mo ++ '-' :: (pad2 d ++ ' ' :: (pad2 hh ++ ':' :: (pad2 mi
    ++ ':' :: pad2 ss))))

/-- The number of days of a month of the Gregorian calendar. -/
def daysInMonth (y mo : Nat) : Nat :=
  if mo = 2 then (if y % 4 = 0 ∧ (y % 100 ≠ 0 ∨ y % 400 = 0) then 29 else 28)
  else if mo = 4 ∨ mo = 6 ∨ mo = 9 ∨ mo = 11 then 30
  else 31

/-- A valid calendar date with a valid time of day, the year of four digits. -/
def ValidDateTime (y mo d hh mi ss : Nat) : Prop :=
  y ≤ 9999 ∧ 1 ≤ mo ∧ mo ≤ 12 ∧ 1 ≤ d ∧ d ≤ daysInMonth y mo ∧ hh ≤ 23 ∧ mi ≤ 59 ∧ ss ≤ 59

instance (y mo d hh mi ss : Nat) : Decidable (ValidDateTime y mo d hh mi ss) := by
  unfold ValidDateTime
  infer_instance

/-- A numeric field as the reference `std::get_time` reads it in front of the text `rest`: a
run of digits, at least one and at most `len`, whose value lies between `lo` and `hi`, and
which no further digit follows unless it has `len` digits already. -/
def IsField (len lo hi : Nat) (f rest : Str) : Prop :=
  f ≠ [] ∧ f.length ≤ len ∧ (∀ c ∈ f, isdigit c = true)
    ∧ lo ≤ digitsValue f ∧ digitsValue f ≤ hi
    ∧ (f.length = len ∨ ∀ c ∈ rest.head?, isdigit c = false)

/-- What may follow the minute: nothing, or `:` and a second (0 to 60), then anything. -/
def SecondPart (r : Str) : Prop :=
  r = [] ∨ ∃ fs rest : Str, r = ':' :: (fs ++ rest) ∧ IsField 2 0 60 fs rest

/-- What may follow the hour: nothing, or `:`, a minute (0 to 59) and what may follow it. -/
def MinutePart (r : Str) : Prop :=
  r = [] ∨ ∃ fmi more : Str, r = ':' :: (fmi ++ more) ∧ IsField 2 0 59 fmi more
    ∧ SecondPart more

/-- What may follow the day: nothing, or white space (possibly none), an hour (0 to 23) and
what may follow it. -/
def HourPart (r : Str) : Prop :=
  r = [] ∨ ∃ ws fh more : Str, r = ws ++ (fh ++ more) ∧ (∀ c ∈ ws, isspace c = true)
    ∧ IsField 2 0 23 fh more ∧ MinutePart more

/-- What may follow the month: nothing, or `-`, at most one white-space character, a day
(1 to 31) and what may follow it. -/
def DayPart (r : Str) : Prop :=
  r = [] ∨ ∃ sp fd more : Str, r = '-' :: (sp ++ (fd ++ more)) ∧ sp.length ≤ 1
    ∧ (∀ c ∈ sp, isspace c = true) ∧ IsField 2 1 31 fd more ∧ HourPart more

/-- What may follow the year: nothing, or `-`, a month (1 to 12) and what may follow it. -/
def MonthPart (r : Str) : Prop :=
  r = [] ∨ ∃ fmo more : Str, r = '-' :: (fmo ++ more) ∧ IsField 2 1 12 fmo more
    ∧ DayPart more

/-- The texts the reference `std::get_time` reads under `%Y-%m-%d %H:%M:%S` without `failbit`:
white space (possibly none), a year of at most four digits, and then nothing more or `-` and a
month, and then nothing more or `-` and a day, and so on up to the second, after which anything
may follow. The text may stop after any of the numbers, not elsewhere. -/
def ReadsAsDateTime (s : Str) : Prop :=
  ∃ lead fy more : Str, s = lead ++ (fy ++ more) ∧ (∀ c ∈ lead, isspace c = true)
    ∧ IsField 4 0 9999 fy more ∧ MonthPart more

/-! ## The field count of the decoder -/

/-- The variable `partsRead` of the `CH` branch of `parseDataFromFile`, after its two
`std::getline` calls on the stream `ssRecord` from which the record type was read. -/
def partsReadCH (ssRecord : IStream) : Nat :=
  let r1 := getline ssRecord '|'
  let r2 := getline r1.2 '|'
  (if r1.1.isSome then 1 else 0) + (if r2.1.isSome then 1 else 0)

/-- The variable `partsRead` of the `PG` branch of `parseDataFromFile`, after its six
`std::getline` calls. -/
def partsReadPG (ssRecord : IStream) : Nat :=
  let r1 := getline ssRecord '|'
  let r2 := getline r1.2 '|'
  let r3 := getline r2.2 '|'
  let r4 := getline r3.2 '|'
  let r5 := getline r4.2 '|'
  let r6 := getline r5.2 '|'
  (if r1.1.isSome then 1 else 0) + (if r2.1.isSome then 1 else 0)
    + (if r3.1.isSome then 1 else 0) + (if r4.1.isSome then 1 else 0)
    + (if r5.1.isSome then 1 else 0) + (if r6.1.isSome then 1 else 0)

/-- The stream over a line after the record type was read from it. -/
def afterTag (line : Str) : IStream := (getline (IStream.open line) '|').2

/-- The number of `|`-separated pieces of a line after its tag, an empty piece at the very end
of the line not counted. -/
def countedFields (line : Str) : Nat :=
  if (recordFields line).getLast? = some [] then (recordFields line).length - 1
  else (recordFields line).length

/-! ## Streams: what `getline` returns -/

theorem takeUntil_length (d : Char) (l : Str) (rest : Str) (h : (takeUntil d l).2 = some rest) :
    rest.length < l.length := by
  induction l with
  | nil => simp [takeUntil] at h
  | cons c cs ih =>
    by_cases hc : c = d
    · simp [takeUntil, hc] at h
      subst h
      simp
    · simp [takeUntil, hc] at h
      have := ih h
      simp
      omega

theorem pieces_eq_nil (d : Char) (l : Str) : pieces d l = [] ↔ l = [] := by
  cases l with
  | nil => simp [pieces]
  | cons c cs =>
    by_cases hc : c = d
    · simp [pieces, hc]
    · cases hp : pieces d cs <;> simp [pieces, hc, hp]

theorem pieces_of_takeUntil_some (d : Char) (l a rest : Str)
    (h : takeUntil d l = (a, some rest)) : pieces d l = a :: pieces d rest := by
  induction l generalizing a with
  | nil => simp [takeUntil] at h
  | cons c cs ih =>
    by_cases hc : c = d
    · simp [takeUntil, hc] at h
      obtain ⟨h1, h2⟩ := h
      subst h1 h2
      simp [pieces, hc]
    · simp [takeUntil, hc] at h
      obtain ⟨h1, h2⟩ := h
      have e : takeUntil d cs = ((takeUntil d cs).1, some rest) := by rw [← h2]
      have := ih _ e
      simp [pieces, hc, this, ← h1]

theorem pieces_of_takeUntil_none (d : Char) (l a : Str) (hl : l ≠ [])
    (h : takeUntil d l = (a, none)) : pieces d l = [a] := by
  induction l generalizing a with
  | nil => exact absurd rfl hl
  | cons c cs ih =>
    by_cases hc : c = d
    · simp [takeUntil, hc] at h
    · simp [takeUntil, hc] at h
      obtain ⟨h1, h2⟩ := h
      cases cs with
      | nil => simp [pieces, hc, takeUntil] at h1 ⊢; exact h1
      | cons c2 cs2 =>
        have e : takeUntil d (c2 :: cs2) = ((takeUntil d (c2 :: cs2)).1, none) := by rw [← h2]
        have := ih _ (by simp) e
        simp only [pieces, hc, if_false] at this ⊢
        rw [this, ← h1]

theorem yields_open (d : Char) (l : Str) : Yields d (IStream.open l) (pieces d l) := by
  simp [Yields, IStream.open]

theorem getline_yields (d : Char) (s : IStream) (L : List Str) (h : Yields d s L) :
    (getline s d).1 = L.head? ∧ Yields d (getline s d).2 L.tail := by
  obtain ⟨buf, eb, fb⟩ := s
  rcases h with ⟨h1, h2, h3⟩ | ⟨h1, h2⟩
  · simp only at h1 h2 h3
    subst h1 h2
    cases buf with
    | nil =>
      simp [pieces] at h3
      subst h3
      simp [getline, Yields]
    | cons c cs =>
      rcases ht : takeUntil d (c :: cs) with ⟨a, _ | rest⟩
      · have hp := pieces_of_takeUntil_none d (c :: cs) a (by simp) ht
        rw [hp] at h3
        subst h3
        simp [getline, ht, Yields]
      · have hp := pieces_of_takeUntil_some d (c :: cs) a rest ht
        rw [hp] at h3
        subst h3
        simp [getline, ht, Yields]
  · subst h2
    simp only at h1
    rcases h1 with h1 | h1 <;> simp [getline, h1, Yields]

theorem parseCH_eq (ss : IStream) (p : Parser) (L : List Str) (h : Yields '|' ss L) :
    parseCH ss p = storeCH p L := by
  obtain ⟨e1, y1⟩ := getline_yields _ _ _ h
  obtain ⟨e2, _⟩ := getline_yields _ _ _ y1
  unfold parseCH
  simp only [e1, e2]
  rcases L with _ | ⟨a, _ | ⟨b, L⟩⟩ <;> simp [storeCH]

theorem parsePG_eq (h : Host) (ss : IStream) (p : Parser) (L : List Str)
    (hy : Yields '|' ss L) : parsePG h ss p = storePG h p L := by
  obtain ⟨e1, y1⟩ := getline_yields _ _ _ hy
  obtain ⟨e2, y2⟩ := getline_yields _ _ _ y1
  obtain ⟨e3, y3⟩ := getline_yields _ _ _ y2
  obtain ⟨e4, y4⟩ := getline_yields _ _ _ y3
  obtain ⟨e5, y5⟩ := getline_yields _ _ _ y4
  obtain ⟨e6, _⟩ := getline_yields _ _ _ y5
  unfold parsePG
  simp only [e1, e2, e3, e4, e5, e6]
  rcases L with _ | ⟨a, _ | ⟨b, _ | ⟨c, _ | ⟨d, _ | ⟨e, _ | ⟨f, L⟩⟩⟩⟩⟩⟩ <;> simp [storePG]

theorem parseRecord_eq (h : Host) (p : Parser) (line : Str) :
    parseRecord h p line = storeRecord h p line := by
  unfold parseRecord storeRecord
  cases line with
  | nil => simp [pieces]
  | cons c cs =>
    by_cases hc : c = '#'
    · simp [hc]
    · obtain ⟨e1, y1⟩ := getline_yields _ _ _ (yields_open '|' (c :: cs))
      simp only [List.isEmpty_cons, List.head?_cons, Option.some.injEq, hc, Bool.false_or,
        decide_False, if_false, e1]
      rcases hp : pieces '|' (c :: cs) with _ | ⟨tag, L⟩
      · simp
      · rw [hp] at y1
        simp only [List.tail_cons] at y1
        simp only [List.head?_cons]
        by_cases t1 : tag = ['C', 'H']
        · simp [t1, parseCH_eq _ _ _ y1]
        · by_cases t2 : tag = ['P', 'G']
          · simp [t2, parsePG_eq _ _ _ _ y1]
          · simp [t1, t2]

theorem parseLoop_eq (h : Host) (fuel : Nat) (buf : Str) (p : Parser)
    (hf : buf.length < fuel) :
    parseLoop h fuel ⟨buf, false, false⟩ p = (fileLines buf).foldl (storeRecord h) p := by
  induction fuel generalizing buf p with
  | zero => omega
  | succ n ih =>
    cases buf with
    | nil => simp [parseLoop, getline, fileLines, pieces]
    | cons c cs =>
      rcases ht : takeUntil '\n' (c :: cs) with ⟨a, _ | rest⟩
      · have hp := pieces_of_takeUntil_none _ (c :: cs) a (by simp) ht
        simp only [parseLoop, getline, ht, fileLines, hp, Bool.or_self, Bool.false_eq_true,
          if_false, List.foldl_cons, List.foldl_nil, parseRecord_eq]
        cases n <;> simp [parseLoop, getline]
      · have hp := pieces_of_takeUntil_some _ (c :: cs) a rest ht
        have hl := takeUntil_length _ (c :: cs) rest (by rw [ht])
        simp only [List.length_cons] at hf hl
        simp only [parseLoop, getline, ht, fileLines, hp, Bool.or_self, Bool.false_eq_true,
          if_false, List.foldl_cons, parseRecord_eq]
        exact ih rest _ (by omega)

theorem parseDataFromFile_some (h : Host) (p0 : Parser) (content : Str) :
    parseDataFromFile h p0 (some content)
      = (true, (fileLines content).foldl (storeRecord h) Parser.empty) := by
  simp only [parseDataFromFile, IStream.open]
  rw [parseLoop_eq h _ content _ (by omega)]
  rfl

/-! ## The map and the query loops -/

theorem mapFind_pushBack_same (m : List (Int × List ProgramInfo)) (k : Int) (x : ProgramInfo) :
    mapFind (mapPushBack m k x) k = some ((mapFind m k).getD [] ++ [x]) := by
  induction m with
  | nil => simp [mapPushBack, mapFind]
  | cons kv rest ih =>
    obtain ⟨k1, v⟩ := kv
    by_cases hk : k1 = k
    · simp [mapPushBack, mapFind, hk]
    · simp [mapPushBack, mapFind, hk, ih]

theorem mapFind_pushBack_ne (m : List (Int × List ProgramInfo)) (k k2 : Int) (x : ProgramInfo)
    (hne : k2 ≠ k) : mapFind (mapPushBack m k x) k2 = mapFind m k2 := by
  induction m with
  | nil => simp [mapPushBack, mapFind, Ne.symm hne]
  | cons kv rest ih =>
    obtain ⟨k1, v⟩ := kv
    by_cases hk : k1 = k
    · subst hk
      simp [mapPushBack, mapFind, Ne.symm hne]
    · by_cases hk2 : k1 = k2
      · subst hk2
        simp [mapPushBack, mapFind, hk]
      · simp [mapPushBack, mapFind, hk, hk2, ih]

theorem getProgramsForChannel_pushBack_same (p : Parser) (k : Int) (x : ProgramInfo) :
    getProgramsForChannel { p with programsByChannelId := mapPushBack p.programsByChannelId k x } k
      = getProgramsForChannel p k ++ [x] := by
  simp only [getProgramsForChannel, mapFind_pushBack_same]
  cases mapFind p.programsByChannelId k <;> simp

theorem getProgramsForChannel_pushBack_ne (p : Parser) (k k2 : Int) (x : ProgramInfo)
    (hne : k2 ≠ k) :
    getProgramsForChannel { p with programsByChannelId := mapPushBack p.programsByChannelId k x }
      k2 = getProgramsForChannel p k2 := by
  simp only [getProgramsForChannel, mapFind_pushBack_ne _ _ _ _ hne]

theorem foldl_push_back (P : ProgramInfo → Prop) [DecidablePred P] (l init : List ProgramInfo) :
    l.foldl (fun acc x => if P x then acc ++ [x] else acc) init
      = init ++ l.filter (fun x => decide (P x)) := by
  induction l generalizing init with
  | nil => simp
  | cons x xs ih =>
    by_cases hx : P x
    · simp [ih, hx]
    · simp [ih, hx]

theorem getProgramsOnNow_eq_filter (p : Parser) (channelId t : Int) :
    getProgramsOnNow p channelId t = (getProgramsForChannel p channelId).filter (airsAt t) := by
  unfold getProgramsOnNow getProgramsForChannel
  cases mapFind p.programsByChannelId channelId with
  | none => simp
  | some programs =>
    simp only [foldl_push_back, List.nil_append]
    rfl

theorem getProgramsForTimeRange_eq_filter (p : Parser) (channelId rs re : Int) (hlt : rs < re) :
    getProgramsForTimeRange p channelId rs re
      = (getProgramsForChannel p channelId).filter (overlaps rs re) := by
  unfold getProgramsForTimeRange getProgramsForChannel
  rw [if_neg (by omega)]
  cases mapFind p.programsByChannelId channelId with
  | none => simp
  | some programs =>
    simp only [foldl_push_back, List.nil_append]
    rfl

/-! ## The invariant of the stored programs -/

theorem storePG_programs (h : Host) (p : Parser) (L : List Str) (id : Int) (pr : ProgramInfo)
    (hin : pr ∈ getProgramsForChannel (storePG h p L) id) :
    pr ∈ getProgramsForChannel p id
      ∨ (0 < pr.startTimeMillis ∧ pr.startTimeMillis < pr.endTimeMillis) := by
  rcases L with _ | ⟨a, _ | ⟨b, _ | ⟨c, _ | ⟨d, _ | ⟨e, _ | ⟨f, L⟩⟩⟩⟩⟩⟩ <;>
    simp only [storePG] at hin <;> try exact Or.inl hin
  cases ha : stoi a with
  | none => rw [ha] at hin; exact Or.inl hin
  | some cid =>
    cases hb : stoi b with
    | none => rw [ha, hb] at hin; exact Or.inl hin
    | some pid =>
      rw [ha, hb] at hin
      simp only at hin
      split at hin
      · rename_i hv
        by_cases hid : id = cid
        · subst hid
          rw [getProgramsForChannel_pushBack_same] at hin
          rcases List.mem_append.mp hin with hin | hin
          · exact Or.inl hin
          · simp only [List.mem_singleton] at hin
            subst hin
            exact Or.inr ⟨hv.1, hv.2⟩
        · rw [getProgramsForChannel_pushBack_ne _ _ _ _ hid] at hin
          exact Or.inl hin
      · exact Or.inl hin

theorem storeCH_programs (p : Parser) (L : List Str) :
    (storeCH p L).programsByChannelId = p.programsByChannelId := by
  rcases L with _ | ⟨a, _ | ⟨b, L⟩⟩ <;> simp only [storeCH]
  cases stoi a <;> rfl

theorem storeRecord_programs (h : Host) (p : Parser) (line : Str) (id : Int) (pr : ProgramInfo)
    (hin : pr ∈ getProgramsForChannel (storeRecord h p line) id) :
    pr ∈ getProgramsForChannel p id
      ∨ (0 < pr.startTimeMillis ∧ pr.startTimeMillis < pr.endTimeMillis) := by
  unfold storeRecord at hin
  split at hin
  · exact Or.inl hin
  · split at hin
    · exact Or.inl hin
    · split at hin
      · simp only [getProgramsForChannel, storeCH_programs] at hin ⊢
        exact Or.inl hin
      · split at hin
        · exact storePG_programs h p _ id pr hin
        · exact Or.inl hin

theorem foldl_storeRecord_programs (h : Host) (lines : List Str) (p : Parser) (id : Int)
    (pr : ProgramInfo) (hin : pr ∈ getProgramsForChannel (lines.foldl (storeRecord h) p) id) :
    pr ∈ getProgramsForChannel p id
      ∨ (0 < pr.startTimeMillis ∧ pr.startTimeMillis < pr.endTimeMillis) := by
  induction lines generalizing p with
  | nil => exact Or.inl hin
  | cons l ls ih =>
    rcases ih _ hin with h1 | h1
    · exact storeRecord_programs h p l id pr h1
    · exact Or.inr h1

theorem loaded_programs_valid (h : Host) (p0 : Parser) (file : Option Str) (id : Int)
    (pr : ProgramInfo) (hin : pr ∈ getProgramsForChannel (parseDataFromFile h p0 file).2 id) :
    0 < pr.startTimeMillis ∧ pr.startTimeMillis < pr.endTimeMillis := by
  cases file with
  | none => simp [parseDataFromFile, Parser.empty, getProgramsForChannel, mapFind] at hin
  | some content =>
    rw [parseDataFromFile_some] at hin
    rcases foldl_storeRecord_programs h _ _ id pr hin with h1 | h1
    · simp [Parser.empty, getProgramsForChannel, mapFind] at h1
    · exact h1

/-! ## The pieces of a line built from its fields -/

theorem pieces_append_delim (d : Char) (a rest : Str) (ha : d ∉ a) :
    pieces d (a ++ d :: rest) = a :: pieces d rest := by
  induction a with
  | nil => simp [pieces]
  | cons c cs ih =>
    simp only [List.mem_cons, not_or] at ha
    have hc : ¬ c = d := fun e => ha.1 e.symm
    simp [pieces, hc, ih ha.2]

theorem pieces_no_delim (d : Char) (a : Str) (ha : d ∉ a) (hne : a ≠ []) :
    pieces d a = [a] := by
  induction a with
  | nil => exact absurd rfl hne
  | cons c cs ih =>
    simp only [List.mem_cons, not_or] at ha
    have hc : ¬ c = d := fun e => ha.1 e.symm
    cases cs with
    | nil => simp [pieces, hc]
    | cons c2 cs2 =>
      have := ih ha.2 (by simp)
      simp only [pieces, hc, if_false] at this ⊢
      rw [this]

theorem storeRecord_pgLine (h : Host) (st : Parser) (c p s e name desc : Str)
    (hc : '|' ∉ c) (hp : '|' ∉ p) (hs : '|' ∉ s) (he : '|' ∉ e) (hn : '|' ∉ name) :
    storeRecord h st (pgLine c p s e name desc)
      = storePG h st (c :: p :: s :: e :: name :: pieces '|' desc) := by
  have e0 : pgLine c p s e name desc
      = ['P', 'G'] ++ '|' :: (c ++ '|' :: (p ++ '|' :: (s ++ '|' :: (e ++ '|' :: (name ++ '|' :: desc))))) := by
    simp [pgLine]
  have hPG : '|' ∉ ['P', 'G'] := by decide
  unfold storeRecord
  rw [e0, pieces_append_delim _ _ _ hPG, pieces_append_delim _ _ _ hc,
    pieces_append_delim _ _ _ hp, pieces_append_delim _ _ _ hs, pieces_append_delim _ _ _ he,
    pieces_append_delim _ _ _ hn]
  simp

theorem storeRecord_chLine (h : Host) (st : Parser) (idField name : Str) (hi : '|' ∉ idField) :
    storeRecord h st (chLine idField name) = storeCH st (idField :: pieces '|' name) := by
  have e0 : chLine idField name = ['C', 'H'] ++ '|' :: (idField ++ '|' :: name) := by
    simp [chLine]
  have hCH : '|' ∉ ['C', 'H'] := by decide
  unfold storeRecord
  rw [e0, pieces_append_delim _ _ _ hCH, pieces_append_delim _ _ _ hi]
  simp

/-! ## What `stoi` accepts -/

theorem isspace_of_isdigit (c : Char) (h : isdigit c = true) : isspace c = false := by
  simp only [isspace, Bool.or_eq_false_iff, decide_eq_false_iff_not]
  refine ⟨⟨⟨⟨⟨?_, ?_⟩, ?_⟩, ?_⟩, ?_⟩, ?_⟩ <;>
    · intro hc
      subst hc
      exact absurd h (by decide)

theorem ne_minus_of_isdigit (c : Char) (h : isdigit c = true) : c ≠ '-' := by
  intro hc
  subst hc
  exact absurd h (by decide)

theorem ne_plus_of_isdigit (c : Char) (h : isdigit c = true) : c ≠ '+' := by
  intro hc
  subst hc
  exact absurd h (by decide)

theorem ne_bar_of_isdigit (c : Char) (h : isdigit c = true) : c ≠ '|' := by
  intro hc
  subst hc
  exact absurd h (by decide)

theorem takeWhile_isdigit_append (ds rest : Str) (hd : ∀ c ∈ ds, isdigit c = true)
    (hr : ∀ c, rest.head? = some c → isdigit c = false) :
    (ds ++ rest).takeWhile isdigit = ds := by
  rw [List.takeWhile_append_of_pos hd]
  cases rest with
  | nil => simp
  | cons r rs =>
    have := hr r rfl
    simp [List.takeWhile_cons, this]

theorem stoi_of_intPrefix (fld : Str) (v : Int) (h : IntPrefix fld v) : stoi fld = some v := by
  obtain ⟨ws, sign, ds, rest, hf, hws, hsign, hne, hds, hrest, hv, hlo, hhi⟩ := h
  obtain ⟨d, ds1, rfl⟩ := List.exists_cons_of_ne_nil hne
  have hd : isdigit d = true := hds d (by simp)
  have htw := takeWhile_isdigit_append (d :: ds1) rest hds hrest
  have hnil : (d :: ds1) ≠ [] := by simp
  subst hf
  unfold stoi
  rw [List.dropWhile_append_of_pos hws]
  rcases hsign with rfl | rfl | rfl
  · have hsp : ¬ isspace d = true := by simp [isspace_of_isdigit d hd]
    simp only [List.nil_append, List.cons_append, List.dropWhile_cons_of_neg hsp,
      List.head?_cons, Option.some.injEq, ne_minus_of_isdigit d hd, ne_plus_of_isdigit d hd,
      or_self, if_false]
    rw [← List.cons_append, htw]
    simp only [hnil, if_false]
    simp only [List.nil_eq, reduceCtorEq, if_false] at hv
    subst hv
    simp [hlo, hhi]
  · have hsp : ¬ isspace '+' = true := by decide
    have e1 : ¬ ('+' = '-') := by decide
    simp only [List.cons_append, List.nil_append, List.dropWhile_cons_of_neg hsp,
      List.head?_cons, Option.some.injEq, List.tail_cons, or_true, if_true, e1, if_false]
    rw [← List.cons_append, htw]
    simp only [hnil, if_false]
    have e2 : ¬ (['+'] = ['-']) := by decide
    simp only [e2, if_false] at hv
    subst hv
    simp [hlo, hhi]
  · have hsp : ¬ isspace '-' = true := by decide
    simp only [List.cons_append, List.nil_append, List.dropWhile_cons_of_neg hsp,
      List.head?_cons, Option.some.injEq, List.tail_cons, true_or, if_true]
    rw [← List.cons_append, htw]
    simp only [hnil, if_false]
    simp only [if_true] at hv
    subst hv
    simp [hlo, hhi]

theorem head?_dropWhile_isdigit (l : Str) (c : Char)
    (h : (l.dropWhile isdigit).head? = some c) : isdigit c = false := by
  have := List.head?_dropWhile_not isdigit l
  rw [h] at this
  exact this

theorem some_of_checked (ds : Str) (w v : Int)
    (h : (if ds = [] then none else if INT_MIN ≤ w ∧ w ≤ INT_MAX then some w else none)
      = some v) : ds ≠ [] ∧ v = w ∧ INT_MIN ≤ v ∧ v ≤ INT_MAX := by
  by_cases hne : ds = []
  · simp [hne] at h
  · by_cases hr : INT_MIN ≤ w ∧ w ≤ INT_MAX
    · rw [if_neg hne, if_pos hr] at h
      simp only [Option.some.injEq] at h
      subst h
      exact ⟨hne, rfl, hr.1, hr.2⟩
    · rw [if_neg hne, if_neg hr] at h
      exact absurd h (by simp)

theorem intPrefix_of_stoi (fld : Str) (v : Int) (h : stoi fld = some v) : IntPrefix fld v := by
  have hfld : fld = fld.takeWhile isspace ++ fld.dropWhile isspace :=
    (List.takeWhile_append_dropWhile isspace fld).symm
  have hws : ∀ c ∈ fld.takeWhile isspace, isspace c = true :=
    fun c hc => List.mem_takeWhile_imp hc
  unfold stoi at h
  generalize fld.dropWhile isspace = s1 at h hfld
  simp only at h
  rcases s1 with _ | ⟨c, t⟩
  · simp at h
  by_cases hm : c = '-'
  · subst hm
    simp only [List.head?_cons, true_or, if_true, List.tail_cons] at h
    obtain ⟨hne, hv, hlo, hhi⟩ := some_of_checked _ _ _ h
    refine ⟨_, ['-'], t.takeWhile isdigit, t.dropWhile isdigit, ?_, hws, Or.inr (Or.inr rfl),
      hne, fun c hc => List.mem_takeWhile_imp hc, head?_dropWhile_isdigit t, ?_, hlo, hhi⟩
    · rw [List.takeWhile_append_dropWhile]
      exact hfld
    · simp only [if_true]
      exact hv
  by_cases hp : c = '+'
  · subst hp
    have e1 : ¬ ('+' = '-') := by decide
    simp only [List.head?_cons, Option.some.injEq, e1, or_true, if_true, if_false,
      List.tail_cons] at h
    obtain ⟨hne, hv, hlo, hhi⟩ := some_of_checked _ _ _ h
    refine ⟨_, ['+'], t.takeWhile isdigit, t.dropWhile isdigit, ?_, hws, Or.inr (Or.inl rfl),
      hne, fun c hc => List.mem_takeWhile_imp hc, head?_dropWhile_isdigit t, ?_, hlo, hhi⟩
    · rw [List.takeWhile_append_dropWhile]
      exact hfld
    · have e2 : ¬ (['+'] = ['-']) := by decide
      simp only [e2, if_false]
      exact hv
  · simp only [List.head?_cons, Option.some.injEq, hm, hp, or_self, if_false] at h
    obtain ⟨hne, hv, hlo, hhi⟩ := some_of_checked _ _ _ h
    refine ⟨_, [], (c :: t).takeWhile isdigit, (c :: t).dropWhile isdigit, ?_, hws, Or.inl rfl,
      hne, fun c hc => List.mem_takeWhile_imp hc, head?_dropWhile_isdigit (c :: t), ?_, hlo,
      hhi⟩
    · rw [List.nil_append, List.takeWhile_append_dropWhile]
      exact hfld
    · simp only [List.nil_eq, reduceCtorEq, if_false]
      exact hv

theorem stoi_eq_some_iff (fld : Str) (v : Int) : stoi fld = some v ↔ IntPrefix fld v :=
  ⟨intPrefix_of_stoi fld v, stoi_of_intPrefix fld v⟩

theorem some_of_whole (ds : Str) (w v : Int)
    (h : (if ds ≠ [] ∧ (∀ c ∈ ds, isdigit c = true) ∧ INT_MIN ≤ w ∧ w ≤ INT_MAX then some w
      else none) = some v) :
    ds ≠ [] ∧ (∀ c ∈ ds, isdigit c = true) ∧ v = w ∧ INT_MIN ≤ v ∧ v ≤ INT_MAX := by
  by_cases hc : ds ≠ [] ∧ (∀ c ∈ ds, isdigit c = true) ∧ INT_MIN ≤ w ∧ w ≤ INT_MAX
  · rw [if_pos hc] at h
    simp only [Option.some.injEq] at h
    subst h
    exact ⟨hc.1, hc.2.1, rfl, hc.2.2.1, hc.2.2.2⟩
  · rw [if_neg hc] at h
    exact absurd h (by simp)

theorem wholeInt_spec (s : Str) (v : Int) (h : wholeInt s = some v) :
    IntPrefix s v ∧ '|' ∉ s := by
  unfold wholeInt at h
  simp only at h
  have hbar : ∀ l : Str, (∀ c ∈ l, isdigit c = true) → '|' ∉ l :=
    fun l hl hin => ne_bar_of_isdigit _ (hl _ hin) rfl
  rcases s with _ | ⟨c, t⟩
  · simp at h
  by_cases hm : c = '-'
  · subst hm
    simp only [List.head?_cons, true_or, if_true, List.tail_cons] at h
    obtain ⟨hne, hds, hv, hlo, hhi⟩ := some_of_whole _ _ _ h
    refine ⟨⟨[], ['-'], t, [], by simp, by simp, Or.inr (Or.inr rfl), hne, hds, by simp, ?_,
      hlo, hhi⟩, ?_⟩
    · simp only [if_true]; exact hv
    · simp only [List.mem_cons, not_or]
      exact ⟨by decide, hbar t hds⟩
  by_cases hp : c = '+'
  · subst hp
    have e1 : ¬ ('+' = '-') := by decide
    simp only [List.head?_cons, Option.some.injEq, e1, or_true, if_true, if_false,
      List.tail_cons] at h
    obtain ⟨hne, hds, hv, hlo, hhi⟩ := some_of_whole _ _ _ h
    refine ⟨⟨[], ['+'], t, [], by simp, by simp, Or.inr (Or.inl rfl), hne, hds, by simp, ?_,
      hlo, hhi⟩, ?_⟩
    · have e2 : ¬ (['+'] = ['-']) := by decide
      simp only [e2, if_false]; exact hv
    · simp only [List.mem_cons, not_or]
      exact ⟨by decide, hbar t hds⟩
  · simp only [List.head?_cons, Option.some.injEq, hm, hp, or_self, if_false] at h
    obtain ⟨hne, hds, hv, hlo, hhi⟩ := some_of_whole _ _ _ h
    refine ⟨⟨[], [], c :: t, [], by simp, by simp, Or.inl rfl, hne, hds, by simp, ?_,
      hlo, hhi⟩, hbar _ hds⟩
    simp only [List.nil_eq, reduceCtorEq, if_false]; exact hv

theorem storeRecord_chLine_valid (h : Host) (st : Parser) (idField name : Str) (v : Int)
    (hv : wholeInt idField = some v) (hne : name ≠ []) (hbar : '|' ∉ name) :
    storeRecord h st (chLine idField name)
      = { st with channels := st.channels ++ [{ channelId := v, channelName := name }] } := by
  obtain ⟨hp, hb⟩ := wholeInt_spec idField v hv
  rw [storeRecord_chLine h st idField name hb, pieces_no_delim _ _ hbar hne]
  simp [storeCH, stoi_of_intPrefix idField v hp]

/-! ## Loading a file line by line -/

theorem load_eq_foldl (h : Host) (p0 : Parser) (content : Str) :
    (parseDataFromFile h p0 (some content)).2
      = (fileLines content).foldl (storeRecord h) Parser.empty := by
  rw [parseDataFromFile_some]

theorem foldl_chLines (h : Host) (recs : List (Str × Str)) (st : Parser)
    (hvalid : ∀ r ∈ recs, (wholeInt r.1).isSome = true ∧ r.2 ≠ [] ∧ '|' ∉ r.2) :
    ((recs.map (fun r => chLine r.1 r.2)).foldl (storeRecord h) st).channels
      = st.channels
          ++ recs.map (fun r => { channelId := (wholeInt r.1).getD 0, channelName := r.2 }) := by
  induction recs generalizing st with
  | nil => simp
  | cons r rs ih =>
    obtain ⟨h1, h2, h3⟩ := hvalid r (by simp)
    obtain ⟨v, hv⟩ := Option.isSome_iff_exists.mp h1
    simp only [List.map_cons, List.foldl_cons]
    rw [storeRecord_chLine_valid h st r.1 r.2 v hv h2 h3,
      ih _ (fun r hr => hvalid r (List.mem_cons_of_mem _ hr))]
    simp [hv]

theorem storePG_full (h : Host) (st : Parser) (c p s e name desc : Str) (cid pid : Int)
    (hcid : stoi c = some cid) (hpid : stoi p = some pid)
    (hs : 0 < parseDateTimeString h s)
    (hse : parseDateTimeString h s < parseDateTimeString h e) (rest : List Str) :
    storePG h st (c :: p :: s :: e :: name :: desc :: rest)
      = { st with programsByChannelId :=
            (mapPushBack st.programsByChannelId cid
              ⟨pid, name, desc, parseDateTimeString h s, parseDateTimeString h e⟩) } := by
  simp [storePG, hcid, hpid, hs, hse]

theorem storePG_invalid_times (h : Host) (st : Parser) (c p s e name : Str) (rest : List Str)
    (hbad : ¬ (0 < parseDateTimeString h s
      ∧ parseDateTimeString h s < parseDateTimeString h e)) :
    storePG h st (c :: p :: s :: e :: name :: rest) = st := by
  cases rest with
  | nil => simp [storePG]
  | cons d ds =>
    simp only [storePG]
    cases stoi c with
    | none => rfl
    | some cid =>
      cases stoi p with
      | none => rfl
      | some pid =>
        simp only [gt_iff_lt]
        rw [if_neg hbad]

/-! ## Lines that store nothing -/

theorem splitAll_ne_nil (d : Char) (l : Str) : splitAll d l ≠ [] := by
  cases l with
  | nil => simp [splitAll]
  | cons c cs =>
    by_cases hc : c = d
    · simp [splitAll, hc]
    · cases hp : splitAll d cs <;> simp [splitAll, hc, hp]

theorem pieces_prefix_splitAll (d : Char) (l : Str) : pieces d l <+: splitAll d l := by
  induction l with
  | nil => simp [pieces]
  | cons c cs ih =>
    by_cases hc : c = d
    · simp [pieces, splitAll, hc, ih]
    · rcases hp : pieces d cs with _ | ⟨f, fs⟩
      · have hcs : cs = [] := (pieces_eq_nil d cs).mp hp
        subst hcs
        simp [pieces, splitAll, hc]
      · rcases hs : splitAll d cs with _ | ⟨g, gs⟩
        · exact absurd hs (splitAll_ne_nil d cs)
        · rw [hp, hs] at ih
          obtain ⟨h1, h2⟩ := List.cons_prefix_cons.mp ih
          subst h1
          simp [pieces, splitAll, hc, hp, hs, h2]

theorem storeCH_short (st : Parser) (L : List Str) (hL : L.length < 2) : storeCH st L = st := by
  rcases L with _ | ⟨a, _ | ⟨b, L⟩⟩
  · rfl
  · rfl
  · simp only [List.length_cons] at hL
    omega

theorem storePG_short (h : Host) (st : Parser) (L : List Str) (hL : L.length < 6) :
    storePG h st L = st := by
  rcases L with _ | ⟨a, _ | ⟨b, _ | ⟨c, _ | ⟨d, _ | ⟨e, _ | ⟨f, L⟩⟩⟩⟩⟩⟩ <;>
    first
      | rfl
      | (simp only [List.length_cons] at hL; omega)

theorem storeRecord_short (h : Host) (st : Parser) (line : Str)
    (hshort : (recordTag line = ['C', 'H'] ∧ (recordFields line).length < 2)
      ∨ (recordTag line = ['P', 'G'] ∧ (recordFields line).length < 6)) :
    storeRecord h st line = st := by
  unfold storeRecord
  split
  · rfl
  · have hpre := pieces_prefix_splitAll '|' line
    rcases hp : pieces '|' line with _ | ⟨tag, fields⟩
    · rfl
    · rcases hs : splitAll '|' line with _ | ⟨g, gs⟩
      · exact absurd hs (splitAll_ne_nil _ line)
      · rw [hp, hs] at hpre
        obtain ⟨h1, h2⟩ := List.cons_prefix_cons.mp hpre
        have hlen := h2.length_le
        simp only [recordTag, recordFields, hs, List.headD_cons, List.tail_cons] at hshort
        subst h1
        rcases hshort with ⟨ht, hl⟩ | ⟨ht, hl⟩
        · subst ht
          simp only [if_true]
          exact storeCH_short st fields (by omega)
        · subst ht
          have e1 : ¬ (['P', 'G'] = ['C', 'H']) := by decide
          simp only [e1, if_false, if_true]
          exact storePG_short h st fields (by omega)

theorem load_without_line (h : Host) (line : Str) (hid : ∀ st, storeRecord h st line = st)
    (p0 : Parser) (content content2 : Str) (pre post : List Str)
    (hc : fileLines content = pre ++ line :: post) (hc2 : fileLines content2 = pre ++ post) :
    parseDataFromFile h p0 (some content) = parseDataFromFile h p0 (some content2) := by
  rw [parseDataFromFile_some, parseDataFromFile_some, hc, hc2, List.foldl_append,
    List.foldl_append, List.foldl_cons, hid]

theorem storeRecord_pgLine_invalid_times (h : Host) (st : Parser) (c p s e name desc : Str)
    (hc : '|' ∉ c) (hp : '|' ∉ p) (hs : '|' ∉ s) (he : '|' ∉ e) (hn : '|' ∉ name)
    (hbad : ¬ (0 < parseDateTimeString h s
      ∧ parseDateTimeString h s < parseDateTimeString h e)) :
    storeRecord h st (pgLine c p s e name desc) = st := by
  rw [storeRecord_pgLine h st c p s e name desc hc hp hs he hn]
  exact storePG_invalid_times h st c p s e name _ hbad

theorem stoi_eq_none_of_no_leading_int (fld : Str) (hno : ∀ v, ¬ IntPrefix fld v) :
    stoi fld = none := by
  cases hst : stoi fld with
  | none => rfl
  | some v => exact absurd (intPrefix_of_stoi fld v hst) (hno v)

theorem storeCH_bad_id (st : Parser) (idField : Str) (rest : List Str)
    (hno : stoi idField = none) : storeCH st (idField :: rest) = st := by
  cases rest with
  | nil => rfl
  | cons n ns => simp [storeCH, hno]

theorem storePG_bad_id (h : Host) (st : Parser) (c p s e name : Str) (rest : List Str)
    (hno : stoi c = none ∨ stoi p = none) :
    storePG h st (c :: p :: s :: e :: name :: rest) = st := by
  cases rest with
  | nil => rfl
  | cons d ds =>
    simp only [storePG]
    cases hc : stoi c with
    | none => rfl
    | some cid =>
      cases hp : stoi p with
      | none => rfl
      | some pid =>
        rcases hno with hno | hno
        · rw [hc] at hno; exact absurd hno (by simp)
        · rw [hp] at hno; exact absurd hno (by simp)

/-! ## Every line adds to the state on its own -/

theorem storeCH_channels (st : Parser) (L : List Str) :
    (storeCH st L).channels = st.channels ++ (storeCH Parser.empty L).channels := by
  rcases L with _ | ⟨a, _ | ⟨b, L⟩⟩ <;> simp only [storeCH, Parser.empty, List.append_nil]
  cases stoi a <;> simp

theorem storePG_channels (h : Host) (st : Parser) (L : List Str) :
    (storePG h st L).channels = st.channels := by
  rcases L with _ | ⟨a, _ | ⟨b, _ | ⟨c, _ | ⟨d, _ | ⟨e, _ | ⟨f, L⟩⟩⟩⟩⟩⟩ <;>
    simp only [storePG]
  cases stoi a with
  | none => rfl
  | some cid =>
    cases stoi b with
    | none => rfl
    | some pid =>
      simp only
      split <;> rfl

theorem getProgramsForChannel_empty (id : Int) : getProgramsForChannel Parser.empty id = [] :=
  rfl

theorem storePG_adds (h : Host) (st : Parser) (L : List Str) (id : Int) :
    getProgramsForChannel (storePG h st L) id
      = getProgramsForChannel st id ++ getProgramsForChannel (storePG h Parser.empty L) id := by
  rcases L with _ | ⟨a, _ | ⟨b, _ | ⟨c, _ | ⟨d, _ | ⟨e, _ | ⟨f, L⟩⟩⟩⟩⟩⟩ <;>
    simp only [storePG, getProgramsForChannel_empty, List.append_nil]
  cases stoi a with
  | none => simp [getProgramsForChannel_empty]
  | some cid =>
    cases stoi b with
    | none => simp [getProgramsForChannel_empty]
    | some pid =>
      simp only
      split
      · by_cases hid : id = cid
        · subst hid
          rw [getProgramsForChannel_pushBack_same, getProgramsForChannel_pushBack_same,
            getProgramsForChannel_empty, List.nil_append]
        · rw [getProgramsForChannel_pushBack_ne _ _ _ _ hid,
            getProgramsForChannel_pushBack_ne _ _ _ _ hid, getProgramsForChannel_empty,
            List.append_nil]
      · simp [getProgramsForChannel_empty]

theorem storeRecord_channels (h : Host) (st : Parser) (line : Str) :
    (storeRecord h st line).channels
      = st.channels ++ (storeRecord h Parser.empty line).channels := by
  unfold storeRecord
  split
  · simp [Parser.empty]
  · split
    · simp [Parser.empty]
    · split
      · exact storeCH_channels st _
      · split
        · rw [storePG_channels, storePG_channels]
          simp [Parser.empty]
        · simp [Parser.empty]

theorem storeRecord_adds (h : Host) (st : Parser) (line : Str) (id : Int) :
    getProgramsForChannel (storeRecord h st line) id
      = getProgramsForChannel st id
          ++ getProgramsForChannel (storeRecord h Parser.empty line) id := by
  unfold storeRecord
  split
  · simp [getProgramsForChannel_empty]
  · split
    · simp [getProgramsForChannel_empty]
    · split
      · simp only [getProgramsForChannel, storeCH_programs]
        simp [Parser.empty, mapFind]
      · split
        · exact storePG_adds h st _ id
        · simp [getProgramsForChannel_empty]

theorem foldl_storeRecord_channels (h : Host) (L : List Str) (st : Parser) :
    (L.foldl (storeRecord h) st).channels
      = st.channels ++ L.flatMap (fun l => (storeRecord h Parser.empty l).channels) := by
  induction L generalizing st with
  | nil => simp
  | cons l ls ih =>
    simp only [List.foldl_cons, List.flatMap_cons]
    rw [ih, storeRecord_channels, List.append_assoc]

theorem foldl_storeRecord_adds (h : Host) (L : List Str) (st : Parser) (id : Int) :
    getProgramsForChannel (L.foldl (storeRecord h) st) id
      = getProgramsForChannel st id
          ++ L.flatMap (fun l => getProgramsForChannel (storeRecord h Parser.empty l) id) := by
  induction L generalizing st with
  | nil => simp
  | cons l ls ih =>
    simp only [List.foldl_cons, List.flatMap_cons]
    rw [ih, storeRecord_adds, List.append_assoc]

theorem load_channels (h : Host) (p0 : Parser) (content : Str) :
    getChannels (parseDataFromFile h p0 (some content)).2
      = (fileLines content).flatMap (fun l => (storeRecord h Parser.empty l).channels) := by
  rw [load_eq_foldl, getChannels, foldl_storeRecord_channels]
  simp [Parser.empty]

theorem load_programs (h : Host) (p0 : Parser) (content : Str) (id : Int) :
    getProgramsForChannel (parseDataFromFile h p0 (some content)).2 id
      = (fileLines content).flatMap
          (fun l => getProgramsForChannel (storeRecord h Parser.empty l) id) := by
  rw [load_eq_foldl, foldl_storeRecord_adds, getProgramsForChannel_empty, List.nil_append]

theorem storeRecord_skipped (h : Host) (st : Parser) (line : Str)
    (hs : isSkipped line = true) : storeRecord h st line = st := by
  unfold storeRecord
  cases line with
  | nil => simp [pieces]
  | cons c cs =>
    simp only [isSkipped, List.isEmpty_cons, Bool.false_or, decide_eq_true_eq] at hs
    rw [if_pos hs]

theorem foldl_storeRecord_filter (h : Host) (L : List Str) (st : Parser) :
    L.foldl (storeRecord h) st
      = (L.filter (fun l => !isSkipped l)).foldl (storeRecord h) st := by
  induction L generalizing st with
  | nil => rfl
  | cons l ls ih =>
    by_cases hs : isSkipped l = true
    · simp only [List.foldl_cons, storeRecord_skipped h st l hs]
      rw [List.filter_cons_of_neg (by simp [hs])]
      exact ih st
    · rw [List.filter_cons_of_pos (by simp [hs])]
      simp only [List.foldl_cons]
      exact ih _

theorem getProgramsOnNow_of_programs (p q : Parser) (id t : Int)
    (hpq : getProgramsForChannel p id = getProgramsForChannel q id) :
    getProgramsOnNow p id t = getProgramsOnNow q id t := by
  rw [getProgramsOnNow_eq_filter, getProgramsOnNow_eq_filter, hpq]

theorem getProgramsForTimeRange_of_programs (p q : Parser) (id rs re : Int)
    (hpq : getProgramsForChannel p id = getProgramsForChannel q id) :
    getProgramsForTimeRange p id rs re = getProgramsForTimeRange q id rs re := by
  by_cases hlt : rs < re
  · rw [getProgramsForTimeRange_eq_filter _ _ _ _ hlt,
      getProgramsForTimeRange_eq_filter _ _ _ _ hlt, hpq]
  · have hge : rs ≥ re := by omega
    simp only [getProgramsForTimeRange, if_pos hge]

theorem storeRecord_tag (line tag : Str) (fields : List Str)
    (hp : pieces '|' line = tag :: fields) :
    recordTag line = tag ∧ fields <+: recordFields line := by
  have hpre := pieces_prefix_splitAll '|' line
  rcases hs : splitAll '|' line with _ | ⟨g, gs⟩
  · exact absurd hs (splitAll_ne_nil _ line)
  · rw [hp, hs] at hpre
    obtain ⟨h1, h2⟩ := List.cons_prefix_cons.mp hpre
    simp only [recordTag, recordFields, hs, List.headD_cons, List.tail_cons]
    exact ⟨h1.symm, h2⟩

theorem storeRecord_CH_no_program (h : Host) (line : Str) (id : Int)
    (ht : recordTag line = ['C', 'H']) :
    getProgramsForChannel (storeRecord h Parser.empty line) id = [] := by
  unfold storeRecord
  split
  · rfl
  · rcases hp : pieces '|' line with _ | ⟨tag, fields⟩
    · rfl
    · obtain ⟨h1, _⟩ := storeRecord_tag line tag fields hp
      rw [ht] at h1
      subst h1
      simp only [if_true, getProgramsForChannel, storeCH_programs]
      rfl

theorem storeRecord_channel_mem (h : Host) (line : Str) (ch : ChannelInfo)
    (hin : ch ∈ (storeRecord h Parser.empty line).channels) :
    recordTag line = ['C', 'H']
      ∧ (recordFields line).head?.bind stoi = some ch.channelId := by
  unfold storeRecord at hin
  split at hin
  · simp [Parser.empty] at hin
  · rcases hp : pieces '|' line with _ | ⟨tag, fields⟩
    · rw [hp] at hin
      simp [Parser.empty] at hin
    · rw [hp] at hin
      obtain ⟨h1, h2⟩ := storeRecord_tag line tag fields hp
      simp only at hin
      split at hin
      · rename_i htag
        rcases fields with _ | ⟨a, _ | ⟨b, L⟩⟩
        · simp [storeCH, Parser.empty] at hin
        · simp [storeCH, Parser.empty] at hin
        · obtain ⟨t, ht⟩ := h2
          simp only [storeCH] at hin
          cases hst : stoi a with
          | none =>
            rw [hst] at hin
            simp [Parser.empty] at hin
          | some v =>
            rw [hst] at hin
            simp only [Parser.empty, List.nil_append, List.mem_singleton] at hin
            subst hin
            refine ⟨by rw [h1, htag], ?_⟩
            rw [← ht]
            simp [hst]
      · split at hin
        · rw [storePG_channels] at hin
          simp [Parser.empty] at hin
        · simp [Parser.empty] at hin

theorem range_query_empty_of_not_lt (p : Parser) (id rs re : Int)
    (hnlt : ¬ rs < re) : getProgramsForTimeRange p id rs re = [] := by
  have hge : rs ≥ re := by omega
  simp only [getProgramsForTimeRange, if_pos hge]

/-! ## The calendar -/

theorem yoe_roundtrip (yoe doy doe : Int) (h0 : 0 ≤ yoe) (h1 : yoe ≤ 399) (d0 : 0 ≤ doy)
    (d1 : doy ≤ 365)
    (hleap : doy = 365 → ((yoe + 1) % 4 = 0 ∧ ((yoe + 1) % 100 ≠ 0 ∨ (yoe + 1) % 400 = 0)))
    (hdoe : doe = yoe * 365 + yoe / 4 - yoe / 100 + doy) :
    (doe - doe / 1460 + doe / 36524 - doe / 146096) / 365 = yoe := by
  obtain ⟨c, hc⟩ : ∃ c, c = yoe / 4 := ⟨_, rfl⟩
  obtain ⟨k, hk⟩ : ∃ k, k = yoe / 100 := ⟨_, rfl⟩
  rw [← hc, ← hk] at hdoe
  have hleap2 : doy = 365 → (yoe = 4 * c + 3 ∧ (yoe ≠ 100 * k + 99 ∨ k = 3)) := by omega
  clear hleap
  have hk4 : k = 0 ∨ k = 1 ∨ k = 2 ∨ k = 3 := by omega
  have hi : doe / 146096 = 0 ∨ (doe / 146096 = 1 ∧ doe = 146096) := by omega
  have hg : doe / 36524 = k ∨ (doe / 36524 = 4 ∧ doe = 146096) := by
    rcases hk4 with rfl | rfl | rfl | rfl <;> omega
  have hf : doe / 1460 = c ∨ doe / 1460 = c + 1 := by
    rcases hk4 with rfl | rfl | rfl | rfl <;> omega
  rcases hi with hi | ⟨hi, hi2⟩
  · rcases hg with hg | ⟨hg, hg2⟩
    · rcases hf with hf | hf
      · rw [hi, hg, hf]; omega
      · rw [hi, hg, hf]; omega
    · omega
  · rcases hg with hg | ⟨hg, hg2⟩
    · omega
    · rw [hi, hg]
      have : doe / 1460 = 100 := by omega
      rw [this]; omega

theorem daysFromCivil_eq (y m d y1 mp era yoe doy doe : Int)
    (hy1 : y1 = if m ≤ 2 then y - 1 else y) (hera : era = y1 / 400)
    (hyoe : yoe = y1 - era * 400) (hmp : mp = if m > 2 then m - 3 else m + 9)
    (hdoy : doy = (153 * mp + 2) / 5 + d - 1)
    (hdoe : doe = yoe * 365 + yoe / 4 - yoe / 100 + doy) :
    daysFromCivil y m d = era * 146097 + doe - 719468 := by
  subst hy1 hera hyoe hmp hdoy hdoe
  rfl

theorem civilFromDays_eq (z z1 era doe yoe doy mp d m : Int)
    (h1 : z1 = z + 719468) (h2 : era = z1 / 146097) (h3 : doe = z1 - era * 146097)
    (h4 : yoe = (doe - doe / 1460 + doe / 36524 - doe / 146096) / 365)
    (h5 : doy = doe - (365 * yoe + yoe / 4 - yoe / 100))
    (h6 : mp = (5 * doy + 2) / 153) (h7 : d = doy - (153 * mp + 2) / 5 + 1)
    (h8 : m = if mp < 10 then mp + 3 else mp - 9) :
    civilFromDays z = (yoe + era * 400 + (if m ≤ 2 then 1 else 0), m, d) := by
  subst h1 h2 h3 h4 h5 h6 h7 h8
  rfl

theorem civil_roundtrip (y m d : Int) (hm1 : 1 ≤ m) (hm2 : m ≤ 12) (hd1 : 1 ≤ d)
    (hd31 : d ≤ 31) (hd30 : m = 4 ∨ m = 6 ∨ m = 9 ∨ m = 11 → d ≤ 30) (hd29 : m = 2 → d ≤ 29)
    (hd28 : m = 2 → ¬ (y % 4 = 0 ∧ (y % 100 ≠ 0 ∨ y % 400 = 0)) → d ≤ 28) :
    civilFromDays (daysFromCivil y m d) = (y, m, d) := by
  obtain ⟨y1, hy1⟩ : ∃ y1, y1 = if m ≤ 2 then y - 1 else y := ⟨_, rfl⟩
  obtain ⟨mp, hmp⟩ : ∃ mp, mp = if m > 2 then m - 3 else m + 9 := ⟨_, rfl⟩
  obtain ⟨era, hera⟩ : ∃ era, era = y1 / 400 := ⟨_, rfl⟩
  obtain ⟨yoe, hyoe⟩ : ∃ yoe, yoe = y1 - era * 400 := ⟨_, rfl⟩
  obtain ⟨doy, hdoy⟩ : ∃ doy, doy = (153 * mp + 2) / 5 + d - 1 := ⟨_, rfl⟩
  obtain ⟨doe, hdoe⟩ : ∃ doe, doe = yoe * 365 + yoe / 4 - yoe / 100 + doy := ⟨_, rfl⟩
  have hyoe0 : 0 ≤ yoe ∧ yoe ≤ 399 := by omega
  have hmp0 : 0 ≤ mp ∧ mp ≤ 11 := by split at hmp <;> omega
  have hm : m = 1 ∨ m = 2 ∨ m = 3 ∨ m = 4 ∨ m = 5 ∨ m = 6 ∨ m = 7 ∨ m = 8 ∨ m = 9 ∨ m = 10
      ∨ m = 11 ∨ m = 12 := by omega
  have hdoy0 : 0 ≤ doy ∧ doy ≤ 365 ∧
      (doy = 365 → ((yoe + 1) % 4 = 0 ∧ ((yoe + 1) % 100 ≠ 0 ∨ (yoe + 1) % 400 = 0))) := by
    rcases hm with rfl | rfl | rfl | rfl | rfl | rfl | rfl | rfl | rfl | rfl | rfl | rfl <;>
      simp at hmp hy1 hd30 hd29 hd28 <;> subst hmp <;> omega
  have hdoe0 : 0 ≤ doe ∧ doe ≤ 146096 := by omega
  have hyr := yoe_roundtrip yoe doy doe hyoe0.1 hyoe0.2 hdoy0.1 hdoy0.2.1 hdoy0.2.2 hdoe
  have hz := daysFromCivil_eq y m d y1 mp era yoe doy doe hy1 hera hyoe hmp hdoy hdoe
  have hmd : mp = (5 * doy + 2) / 153 := by
    rcases hm with rfl | rfl | rfl | rfl | rfl | rfl | rfl | rfl | rfl | rfl | rfl | rfl <;>
      simp at hmp hd30 hd29 <;> subst hmp <;> omega
  rw [civilFromDays_eq (daysFromCivil y m d) (era * 146097 + doe) era doe yoe doy mp d m
    (by omega) (by omega) (by omega) hyr.symm (by omega) hmd (by omega)
    (by split at hmp <;> split <;> omega)]
  have : yoe + era * 400 + (if m ≤ 2 then 1 else 0) = y := by
    split at hy1 <;> split <;> omega
  rw [this]

theorem daysFromCivil_day (y m d : Int) :
    daysFromCivil y m 1 + (d - 1) = daysFromCivil y m d := by
  unfold daysFromCivil
  simp only
  omega

theorem daysFromCivil_bounds (y m d : Int) (hy1 : 1970 ≤ y) (hy2 : y ≤ 9999)
    (hm1 : 1 ≤ m) (hm2 : m ≤ 12) (hd1 : 1 ≤ d) (hd2 : d ≤ 31) :
    0 ≤ daysFromCivil y m d ∧ daysFromCivil y m d ≤ 2932896 := by
  unfold daysFromCivil
  simp only
  split <;> split <;> omega

theorem daysFromCivil_before_epoch (y m d : Int) (hy1 : 0 ≤ y) (hy2 : y ≤ 1969)
    (hm1 : 1 ≤ m) (hm2 : m ≤ 12) (hd1 : 1 ≤ d) (hd2 : d ≤ 31) :
    -719528 ≤ daysFromCivil y m d ∧ daysFromCivil y m d ≤ -1 := by
  unfold daysFromCivil
  simp only
  split <;> split <;> omega

/-! ## Reading and writing the text of a date and time -/

theorem isdigit_digitChar (k : Nat) (hk : k < 10) : isdigit (Nat.digitChar k) = true := by
  interval_cases k <;> decide

theorem digitChar_value (k : Nat) (hk : k < 10) :
    (Nat.digitChar k).toNat - '0'.toNat = k := by
  interval_cases k <;> decide

theorem decimal_four (n : Nat) (h1 : 1000 ≤ n) (h2 : n ≤ 9999) : decimal n = pad4 n := by
  have a1 : ¬ n < 10 := by omega
  have a2 : ¬ n / 10 < 10 := by omega
  have a3 : ¬ n / 10 / 10 < 10 := by omega
  have a4 : n / 10 / 10 / 10 < 10 := by omega
  have b1 : n / 10 / 10 / 10 = n / 1000 % 10 := by omega
  have b2 : n / 10 / 10 % 10 = n / 100 % 10 := by omega
  simp only [decimal, decimalAux, a1, a2, a3, a4, if_true, if_false, pad4]
  rw [b1, b2]

theorem readNum_pad2 (n : Nat) (hn : n ≤ 99) (rest : Str) :
    readNum 2 (pad2 n ++ rest) = some (n, rest) := by
  have d1 := isdigit_digitChar (n / 10 % 10) (by omega)
  have d2 := isdigit_digitChar (n % 10) (by omega)
  have v1 := digitChar_value (n / 10 % 10) (by omega)
  have v2 := digitChar_value (n % 10) (by omega)
  simp only [readNum, pad2, List.cons_append, List.nil_append, List.take_succ_cons,
    List.take_zero, List.takeWhile_cons, d1, d2, if_true, List.takeWhile_nil, List.length_cons,
    List.length_nil, List.drop_succ_cons, List.drop_zero, digitsValue, List.foldl_cons,
    List.foldl_nil, v1, v2]
  simp
  omega

theorem readNum_pad4 (n : Nat) (hn : n ≤ 9999) (rest : Str) :
    readNum 4 (pad4 n ++ rest) = some (n, rest) := by
  have d1 := isdigit_digitChar (n / 1000 % 10) (by omega)
  have d2 := isdigit_digitChar (n / 100 % 10) (by omega)
  have d3 := isdigit_digitChar (n / 10 % 10) (by omega)
  have d4 := isdigit_digitChar (n % 10) (by omega)
  have v1 := digitChar_value (n / 1000 % 10) (by omega)
  have v2 := digitChar_value (n / 100 % 10) (by omega)
  have v3 := digitChar_value (n / 10 % 10) (by omega)
  have v4 := digitChar_value (n % 10) (by omega)
  simp only [readNum, pad4, List.cons_append, List.nil_append, List.take_succ_cons,
    List.take_zero, List.takeWhile_cons, d1, d2, d3, d4, if_true, List.takeWhile_nil,
    List.length_cons, List.length_nil, List.drop_succ_cons, List.drop_zero, digitsValue,
    List.foldl_cons, List.foldl_nil, v1, v2, v3, v4]
  simp
  omega

theorem dropWhile_isspace_pad2 (n : Nat) (rest : Str) :
    (' ' :: (pad2 n ++ rest)).dropWhile isspace = pad2 n ++ rest := by
  have d1 := isspace_of_isdigit _ (isdigit_digitChar (n / 10 % 10) (by omega))
  have hsp : isspace ' ' = true := by decide
  simp [pad2, List.dropWhile_cons, d1, hsp]

theorem dropWhile_isspace_pad4 (n : Nat) (rest : Str) :
    (pad4 n ++ rest).dropWhile isspace = pad4 n ++ rest := by
  have d1 := isspace_of_isdigit _ (isdigit_digitChar (n / 1000 % 10) (by omega))
  simp [pad4, List.dropWhile_cons, d1]

theorem head_isspace_pad2 (n : Nat) (rest : Str) :
    (pad2 n ++ rest).head?.any isspace = false := by
  have d1 := isspace_of_isdigit _ (isdigit_digitChar (n / 10 % 10) (by omega))
  simp [pad2, d1]

theorem utcGetTime_dateTimeText (y mo d hh mi ss : Nat) (hy : y ≤ 9999) (hmo1 : 1 ≤ mo)
    (hmo2 : mo ≤ 12) (hd1 : 1 ≤ d) (hd2 : d ≤ 31) (hh2 : hh ≤ 23) (hmi2 : mi ≤ 59)
    (hss2 : ss ≤ 60) :
    utcGetTime (dateTimeText y mo d hh mi ss)
      = some { tm_sec := ss, tm_min := mi, tm_hour := hh, tm_mday := d,
               tm_mon := (mo : Int) - 1, tm_year := (y : Int) - 1900 } := by
  have e6 : readNum 2 (pad2 ss) = some (ss, []) := by
    have := readNum_pad2 ss (by omega) []
    rwa [List.append_nil] at this
  have hne : ∀ (c : Char) (l : Str), ¬ (c :: l = []) := fun c l hc => by simp at hc
  unfold utcGetTime dateTimeText
  simp only
  rw [dropWhile_isspace_pad4, readNum_pad4 y hy]
  simp only [expectChar, if_true, hne, if_false]
  rw [readNum_pad2 mo (by omega)]
  simp only [expectChar, if_true, hmo1, hmo2, and_self, not_true_eq_false, if_false, hne]
  rw [head_isspace_pad2]
  simp only [Bool.false_eq_true, if_false]
  rw [readNum_pad2 d (by omega)]
  simp only [hd1, hd2, and_self, not_true_eq_false, if_false, hne]
  rw [dropWhile_isspace_pad2 hh, readNum_pad2 hh (by omega)]
  simp only [expectChar, if_true, hh2, not_true_eq_false, if_false, hne]
  rw [readNum_pad2 mi (by omega)]
  simp only [expectChar, if_true, hmi2, not_true_eq_false, if_false, hne]
  rw [e6]
  simp only [hss2, not_true_eq_false, if_false]

theorem put_time_dateTime (y mo d hh mi ss : Nat) (hy1 : 1000 ≤ y) (hy2 : y ≤ 9999) :
    put_time { tm_sec := ss, tm_min := mi, tm_hour := hh, tm_mday := d,
               tm_mon := (mo : Int) - 1, tm_year := (y : Int) - 1900 }
      = dateTimeText y mo d hh mi ss := by
  have e1 : (y : Int) - 1900 + 1900 = y := by omega
  have e2 : (mo : Int) - 1 + 1 = mo := by omega
  have e3 : ¬ ((y : Int) < 0) := by omega
  simp only [put_time, dateTimeText, e1, e2, e3, if_false, Int.toNat_ofNat,
    decimal_four y hy1 hy2]

theorem utcMktime_dateTime (y mo d hh mi ss : Nat) (hmo1 : 1 ≤ mo) (hmo2 : mo ≤ 12) :
    utcMktime { tm_sec := ss, tm_min := mi, tm_hour := hh, tm_mday := d,
                tm_mon := (mo : Int) - 1, tm_year := (y : Int) - 1900 }
      = daysFromCivil y mo d * 86400 + hh * 3600 + mi * 60 + ss := by
  have e1 : (y : Int) - 1900 + 1900 + ((mo : Int) - 1) / 12 = y := by omega
  have e2 : ((mo : Int) - 1) % 12 + 1 = mo := by omega
  simp only [utcMktime, e1, e2, daysFromCivil_day]

theorem wrapInt64_of_range (x : Int) (h1 : -(2 : Int) ^ 63 ≤ x) (h2 : x < 2 ^ 63) :
    wrapInt64 x = x := by
  unfold wrapInt64
  norm_num at h1 h2 ⊢
  omega

theorem gmtime_of_day (D r y m d : Int) (hciv : civilFromDays D = (y, m, d))
    (hr1 : 0 ≤ r) (hr2 : r < 86400) (hy1 : 0 ≤ y) (hy2 : y ≤ 9999) :
    gmtime (D * 86400 + r)
      = some { tm_sec := r % 60, tm_min := r / 60 % 60, tm_hour := r / 3600,
               tm_mday := d, tm_mon := m - 1, tm_year := y - 1900 } := by
  have e1 : (D * 86400 + r) / 86400 = D := by omega
  have e2 : (D * 86400 + r) % 86400 = r := by omega
  have e3 : INT_MIN ≤ y - 1900 ∧ y - 1900 ≤ INT_MAX := by
    unfold INT_MIN INT_MAX
    omega
  simp only [gmtime, e1, e2, hciv]
  rw [if_pos e3]

theorem civil_roundtrip_valid (y mo d hh mi ss : Nat) (hv : ValidDateTime y mo d hh mi ss) :
    civilFromDays (daysFromCivil y mo d) = ((y : Int), (mo : Int), (d : Int)) := by
  obtain ⟨_, hmo1, hmo2, hd1, hd2, _, _, _⟩ := hv
  unfold daysInMonth at hd2
  apply civil_roundtrip
  · omega
  · omega
  · omega
  · split at hd2
    · split at hd2 <;> omega
    · split at hd2 <;> omega
  · intro hm
    split at hd2
    · omega
    · split at hd2
      · omega
      · omega
  · intro hm
    split at hd2
    · split at hd2 <;> omega
    · omega
  · intro hm hnl
    split at hd2
    · split at hd2
      · omega
      · omega
    · omega

theorem day_le_31 (y mo d hh mi ss : Nat) (hv : ValidDateTime y mo d hh mi ss) : d ≤ 31 := by
  obtain ⟨_, _, _, _, hd2, _, _, _⟩ := hv
  unfold daysInMonth at hd2
  split at hd2
  · split at hd2 <;> omega
  · split at hd2 <;> omega

theorem parse_dateTimeText (y mo d hh mi ss : Nat) (hv : ValidDateTime y mo d hh mi ss) :
    parseDateTimeString utcHost (dateTimeText y mo d hh mi ss)
      = if daysFromCivil y mo d * 86400 + hh * 3600 + mi * 60 + ss = -1 then 0
        else wrapInt64 ((daysFromCivil y mo d * 86400 + hh * 3600 + mi * 60 + ss) * 1000) := by
  have hd31 := day_le_31 y mo d hh mi ss hv
  obtain ⟨hy, hmo1, hmo2, hd1, _, hh2, hmi2, hss2⟩ := hv
  simp only [parseDateTimeString, utcHost,
    utcGetTime_dateTimeText y mo d hh mi ss hy hmo1 hmo2 hd1 hd31 hh2 hmi2 (by omega),
    utcMktime_dateTime y mo d hh mi ss hmo1 hmo2]

theorem formatTime_of_seconds (ticksPerMilli secs : Int) (hs : 0 < secs)
    (ht : 0 < ticksPerMilli) (hfit : secs * 1000 * ticksPerMilli < 2 ^ 63) :
    formatTime ticksPerMilli (secs * 1000)
      = match gmtime secs with
        | none => "Invalid Time".toList
        | some utcTm => put_time utcTm := by
  have hpos : 0 < secs * 1000 * ticksPerMilli := by positivity
  have hw : wrapInt64 (secs * 1000 * ticksPerMilli) = secs * 1000 * ticksPerMilli :=
    wrapInt64_of_range _ (by norm_num; omega) hfit
  have hdiv : Int.tdiv (secs * 1000 * ticksPerMilli) (ticksPerMilli * 1000) = secs := by
    rw [Int.tdiv_eq_ediv (by omega) (by omega)]
    have : secs * 1000 * ticksPerMilli = secs * (ticksPerMilli * 1000) := by ring
    rw [this]
    exact Int.mul_ediv_cancel _ (by omega)
  have hnot : ¬ (secs * 1000 ≤ 0) := by omega
  simp only [formatTime, hnot, if_false, hw, hdiv]

/-! ## What the reference `std::get_time` accepts -/

theorem expectChar_some (c : Char) (s rest : Str) (h : expectChar c s = some rest) :
    s = c :: rest := by
  cases s with
  | nil => simp [expectChar] at h
  | cons d ds =>
    by_cases hd : d = c
    · simp [expectChar, hd] at h
      rw [hd, h]
    · simp [expectChar, hd] at h

theorem digitsValue_foldl_lt (ds : Str) (acc : Nat) (hd : ∀ c ∈ ds, isdigit c = true) :
    ds.foldl (fun acc c => 10 * acc + (c.toNat - '0'.toNat)) acc
      < (acc + 1) * 10 ^ ds.length := by
  induction ds generalizing acc with
  | nil => simp
  | cons c cs ih =>
    have hc : isdigit c = true := hd c (by simp)
    have h0 : '0'.toNat = 48 := by decide
    have h9 : '9'.toNat = 57 := by decide
    simp only [isdigit, h0, h9, decide_eq_true_eq] at hc
    have hv : c.toNat - '0'.toNat ≤ 9 := by omega
    have h1 := ih (10 * acc + (c.toNat - '0'.toNat)) (fun x hx => hd x (List.mem_cons_of_mem _ hx))
    have h2 : (10 * acc + (c.toNat - '0'.toNat) + 1) * 10 ^ cs.length
        ≤ (10 * (acc + 1)) * 10 ^ cs.length := Nat.mul_le_mul_right _ (by omega)
    have h3 : (10 * (acc + 1)) * 10 ^ cs.length = (acc + 1) * 10 ^ (cs.length + 1) := by ring
    simp only [List.foldl_cons, List.length_cons]
    rw [← h3]
    exact lt_of_lt_of_le h1 h2

theorem digitsValue_lt (ds : Str) (hd : ∀ c ∈ ds, isdigit c = true) :
    digitsValue ds < 10 ^ ds.length := by
  have := digitsValue_foldl_lt ds 0 hd
  simpa [digitsValue] using this

theorem takeWhile_take_max (len : Nat) (s : Str) :
    ((s.take len).takeWhile isdigit).length = len
      ∨ ∀ c ∈ (s.drop ((s.take len).takeWhile isdigit).length).head?, isdigit c = false := by
  induction s generalizing len with
  | nil =>
    right
    simp
  | cons d ds ih =>
    cases len with
    | zero =>
      left
      simp
    | succ n =>
      by_cases hd : isdigit d = true
      · rcases ih n with h | h
        · left
          simp [List.take, List.takeWhile, hd, h]
        · right
          simpa [List.take, List.takeWhile, hd] using h
      · right
        simp [List.take, List.takeWhile, hd]

theorem takeWhile_take_field (len : Nat) (f rest : Str) (hlen : f.length ≤ len)
    (hd : ∀ c ∈ f, isdigit c = true)
    (hmax : f.length = len ∨ ∀ c ∈ rest.head?, isdigit c = false) :
    ((f ++ rest).take len).takeWhile isdigit = f := by
  induction f generalizing len with
  | nil =>
    cases len with
    | zero => simp
    | succ n =>
      cases rest with
      | nil => simp
      | cons c cs =>
        have hc : isdigit c = false := by
          rcases hmax with h | h
          · simp at h
          · exact h c (by simp)
        simp [List.take, List.takeWhile, hc]
  | cons d ds ih =>
    cases len with
    | zero => simp at hlen
    | succ n =>
      have h1 : isdigit d = true := hd d (by simp)
      have h2 := ih n (by simpa using hlen) (fun c hc => hd c (List.mem_cons_of_mem _ hc))
        (by
          rcases hmax with h | h
          · left
            simpa using h
          · right
            exact h)
      simp [List.take, List.takeWhile, h1, h2]

theorem readNum_field (len lo hi : Nat) (f rest : Str) (h : IsField len lo hi f rest) :
    readNum len (f ++ rest) = some (digitsValue f, rest) := by
  obtain ⟨hne, hlen, hd, -, -, hmax⟩ := h
  unfold readNum
  simp only [takeWhile_take_field len f rest hlen hd hmax, if_neg hne, List.drop_left]

theorem isField_of_readNum (len lo hi : Nat) (s rest : Str) (v : Nat)
    (h : readNum len s = some (v, rest)) (hlo : lo ≤ v) (hhi : v ≤ hi) :
    ∃ f : Str, s = f ++ rest ∧ IsField len lo hi f rest := by
  unfold readNum at h
  simp only at h
  split at h
  · exact absurd h (by simp)
  · rename_i hne
    simp only [Option.some.injEq, Prod.mk.injEq] at h
    obtain ⟨hv, hrest⟩ := h
    have hpre : (s.take len).takeWhile isdigit <+: s :=
      (List.takeWhile_prefix isdigit).trans (List.take_prefix len s)
    refine ⟨(s.take len).takeWhile isdigit, ?_, hne, ?_, fun c hc => List.mem_takeWhile_imp hc,
      by omega, by omega, ?_⟩
    · rw [← hrest]
      exact (List.prefix_iff_eq_append.mp hpre).symm
    · exact ((List.takeWhile_prefix isdigit).length_le).trans (List.length_take_le len s)
    · rw [← hrest]
      exact takeWhile_take_max len s

theorem isField_year_of_readNum (s rest : Str) (v : Nat) (h : readNum 4 s = some (v, rest)) :
    ∃ f : Str, s = f ++ rest ∧ IsField 4 0 9999 f rest := by
  obtain ⟨f, e, a, b, c, hv1, hv2, hmax⟩ := isField_of_readNum 4 v v s rest v h le_rfl le_rfl
  have hp : 10 ^ f.length ≤ 10 ^ 4 := Nat.pow_le_pow_right (by omega) b
  have := digitsValue_lt f c
  exact ⟨f, e, a, b, c, Nat.zero_le _, by omega, hmax⟩

theorem day_space (s : Str) :
    ∃ sp : Str, s = sp ++ (if s.head?.any isspace then s.tail else s) ∧ sp.length ≤ 1
      ∧ ∀ c ∈ sp, isspace c = true := by
  cases s with
  | nil => exact ⟨[], by simp, by simp, by simp⟩
  | cons c cs =>
    by_cases hc : isspace c = true
    · exact ⟨[c], by simp [hc], by simp, by simp [hc]⟩
    · exact ⟨[], by simp [hc], by simp, by simp⟩

theorem dropWhile_isspace_digits (ws f rest : Str) (hws : ∀ c ∈ ws, isspace c = true)
    (hne : f ≠ []) (hd : ∀ c ∈ f, isdigit c = true) :
    (ws ++ (f ++ rest)).dropWhile isspace = f ++ rest := by
  induction ws with
  | nil =>
    cases f with
    | nil => exact absurd rfl hne
    | cons d ds =>
      have hsp := isspace_of_isdigit d (hd d (by simp))
      simp [List.dropWhile, hsp]
  | cons c cs ih =>
    have hc := hws c (by simp)
    simp only [List.cons_append, List.dropWhile, hc]
    exact ih (fun x hx => hws x (List.mem_cons_of_mem _ hx))

theorem day_space_digits (sp f rest : Str) (hlen : sp.length ≤ 1)
    (hsp : ∀ c ∈ sp, isspace c = true) (hne : f ≠ []) (hd : ∀ c ∈ f, isdigit c = true) :
    (if (sp ++ (f ++ rest)).head?.any isspace then (sp ++ (f ++ rest)).tail
      else sp ++ (f ++ rest)) = f ++ rest := by
  cases f with
  | nil => exact absurd rfl hne
  | cons d ds =>
    have hdsp := isspace_of_isdigit d (hd d (by simp))
    cases sp with
    | nil => simp [hdsp]
    | cons c cs =>
      cases cs with
      | nil =>
        have hc := hsp c (by simp)
        simp [hc]
      | cons _ _ => simp at hlen

theorem expectChar_cons_self (c : Char) (rest : Str) : expectChar c (c :: rest) = some rest := by
  simp [expectChar]

theorem readsAsDateTime_of_utcGetTime (s : Str) (t : Tm) (h : utcGetTime s = some t) :
    ReadsAsDateTime s := by
  have hlead : ∀ c ∈ s.takeWhile isspace, isspace c = true :=
    fun c hc => List.mem_takeWhile_imp hc
  have e0 : s = s.takeWhile isspace ++ s.dropWhile isspace :=
    (List.takeWhile_append_dropWhile isspace s).symm
  unfold utcGetTime at h
  simp only at h
  generalize s.dropWhile isspace = s0 at h e0
  generalize s.takeWhile isspace = lead at hlead e0
  rcases h1 : readNum 4 s0 with _ | ⟨year, s1⟩
  · simp [h1] at h
  simp only [h1] at h
  obtain ⟨fy, e1, iy⟩ := isField_year_of_readNum _ _ _ h1
  refine ⟨lead, fy, s1, by rw [e0, e1], hlead, iy, ?_⟩
  by_cases z1 : s1 = []
  · exact Or.inl z1
  rw [if_neg z1] at h
  rcases h2 : expectChar '-' s1 with _ | s2
  · simp [h2] at h
  simp only [h2] at h
  have e2 := expectChar_some _ _ _ h2
  rcases h3 : readNum 2 s2 with _ | ⟨mon, s3⟩
  · simp [h3] at h
  simp only [h3] at h
  by_cases hmon : 1 ≤ mon ∧ mon ≤ 12
  swap
  · rw [if_pos hmon] at h
    exact absurd h (by simp)
  rw [if_neg (not_not.mpr hmon)] at h
  obtain ⟨fmo, e3, imo⟩ := isField_of_readNum 2 1 12 _ _ _ h3 hmon.1 hmon.2
  refine Or.inr ⟨fmo, s3, by rw [e2, e3], imo, ?_⟩
  by_cases z3 : s3 = []
  · exact Or.inl z3
  rw [if_neg z3] at h
  rcases h4 : expectChar '-' s3 with _ | s4
  · simp [h4] at h
  simp only [h4] at h
  have e4 := expectChar_some _ _ _ h4
  obtain ⟨sp, esp, hsp1, hsp2⟩ := day_space s4
  generalize (if s4.head?.any isspace then s4.tail else s4) = s4b at h esp
  rcases h5 : readNum 2 s4b with _ | ⟨mday, s5⟩
  · simp [h5] at h
  simp only [h5] at h
  by_cases hmday : 1 ≤ mday ∧ mday ≤ 31
  swap
  · rw [if_pos hmday] at h
    exact absurd h (by simp)
  rw [if_neg (not_not.mpr hmday)] at h
  obtain ⟨fd, e5, id5⟩ := isField_of_readNum 2 1 31 _ _ _ h5 hmday.1 hmday.2
  refine Or.inr ⟨sp, fd, s5, by rw [e4, esp, e5], hsp1, hsp2, id5, ?_⟩
  by_cases z5 : s5 = []
  · exact Or.inl z5
  rw [if_neg z5] at h
  have ews : s5 = s5.takeWhile isspace ++ s5.dropWhile isspace :=
    (List.takeWhile_append_dropWhile isspace s5).symm
  have hws : ∀ c ∈ s5.takeWhile isspace, isspace c = true :=
    fun c hc => List.mem_takeWhile_imp hc
  generalize s5.takeWhile isspace = ws at ews hws
  generalize s5.dropWhile isspace = s5b at h ews
  rcases h6 : readNum 2 s5b with _ | ⟨hour, s6⟩
  · simp [h6] at h
  simp only [h6] at h
  by_cases hhour : hour ≤ 23
  swap
  · rw [if_pos hhour] at h
    exact absurd h (by simp)
  rw [if_neg (not_not.mpr hhour)] at h
  obtain ⟨fh, e6, ih6⟩ := isField_of_readNum 2 0 23 _ _ _ h6 (Nat.zero_le _) hhour
  refine Or.inr ⟨ws, fh, s6, by rw [ews, e6], hws, ih6, ?_⟩
  by_cases z6 : s6 = []
  · exact Or.inl z6
  rw [if_neg z6] at h
  rcases h7 : expectChar ':' s6 with _ | s7
  · simp [h7] at h
  simp only [h7] at h
  have e7 := expectChar_some _ _ _ h7
  rcases h8 : readNum 2 s7 with _ | ⟨min, s8⟩
  · simp [h8] at h
  simp only [h8] at h
  by_cases hmin : min ≤ 59
  swap
  · rw [if_pos hmin] at h
    exact absurd h (by simp)
  rw [if_neg (not_not.mpr hmin)] at h
  obtain ⟨fmi, e8, imi⟩ := isField_of_readNum 2 0 59 _ _ _ h8 (Nat.zero_le _) hmin
  refine Or.inr ⟨fmi, s8, by rw [e7, e8], imi, ?_⟩
  by_cases z8 : s8 = []
  · exact Or.inl z8
  rw [if_neg z8] at h
  rcases h9 : expectChar ':' s8 with _ | s9
  · simp [h9] at h
  simp only [h9] at h
  have e9 := expectChar_some _ _ _ h9
  rcases h10 : readNum 2 s9 with _ | ⟨sec, s10⟩
  · simp [h10] at h
  simp only [h10] at h
  by_cases hsec : sec ≤ 60
  swap
  · rw [if_pos hsec] at h
    exact absurd h (by simp)
  obtain ⟨fs, e10, is10⟩ := isField_of_readNum 2 0 60 _ _ _ h10 (Nat.zero_le _) hsec
  exact Or.inr ⟨fs, s10, by rw [e9, e10], is10⟩

theorem utcGetTime_of_readsAsDateTime (s : Str) (h : ReadsAsDateTime s) :
    ∃ t : Tm, utcGetTime s = some t := by
  obtain ⟨lead, fy, r1, rfl, hlead, iy, hmo⟩ := h
  unfold utcGetTime
  simp only
  rw [dropWhile_isspace_digits lead fy r1 hlead iy.1 iy.2.2.1, readNum_field _ _ _ _ _ iy]
  simp only
  rcases hmo with rfl | ⟨fmo, r2, rfl, imo, hda⟩
  · exact ⟨_, if_pos rfl⟩
  rw [if_neg (List.cons_ne_nil _ _), expectChar_cons_self]
  simp only
  rw [readNum_field _ _ _ _ _ imo]
  simp only
  rw [if_neg (not_not.mpr ⟨imo.2.2.2.1, imo.2.2.2.2.1⟩)]
  rcases hda with rfl | ⟨sp, fd, r3, rfl, hsp1, hsp2, ida, hho⟩
  · exact ⟨_, if_pos rfl⟩
  rw [if_neg (List.cons_ne_nil _ _), expectChar_cons_self]
  simp only
  rw [day_space_digits sp fd r3 hsp1 hsp2 ida.1 ida.2.2.1, readNum_field _ _ _ _ _ ida]
  simp only
  rw [if_neg (not_not.mpr ⟨ida.2.2.2.1, ida.2.2.2.2.1⟩)]
  rcases hho with rfl | ⟨ws, fh, r4, rfl, hws, iho, hmi⟩
  · exact ⟨_, if_pos rfl⟩
  have hne4 : ws ++ (fh ++ r4) ≠ [] := by
    have := iho.1
    simp [this]
  rw [if_neg hne4, dropWhile_isspace_digits ws fh r4 hws iho.1 iho.2.2.1,
    readNum_field _ _ _ _ _ iho]
  simp only
  rw [if_neg (not_not.mpr iho.2.2.2.2.1)]
  rcases hmi with rfl | ⟨fmi, r5, rfl, imi, hse⟩
  · exact ⟨_, if_pos rfl⟩
  rw [if_neg (List.cons_ne_nil _ _), expectChar_cons_self]
  simp only
  rw [readNum_field _ _ _ _ _ imi]
  simp only
  rw [if_neg (not_not.mpr imi.2.2.2.2.1)]
  rcases hse with rfl | ⟨fs, r6, rfl, ise⟩
  · exact ⟨_, if_pos rfl⟩
  rw [if_neg (List.cons_ne_nil _ _), expectChar_cons_self]
  simp only
  rw [readNum_field _ _ _ _ _ ise]
  simp only
  rw [if_neg (not_not.mpr ise.2.2.2.2.1)]
  exact ⟨_, rfl⟩

theorem readsAsDateTime_iff (s : Str) : ReadsAsDateTime s ↔ (utcGetTime s).isSome = true := by
  constructor
  · intro h
    obtain ⟨t, ht⟩ := utcGetTime_of_readsAsDateTime s h
    rw [ht]
    rfl
  · intro h
    cases hu : utcGetTime s with
    | none =>
      rw [hu] at h
      exact absurd h (by simp)
    | some t => exact readsAsDateTime_of_utcGetTime s t hu

theorem utcGetTime_dateTimeText_none (y mo d hh mi ss : Nat) (hy : y ≤ 9999) (hmo : mo ≤ 99)
    (hd : d ≤ 99) (hh9 : hh ≤ 99) (hmi : mi ≤ 99) (hss : ss ≤ 99)
    (hbad : ¬ (1 ≤ mo ∧ mo ≤ 12 ∧ 1 ≤ d ∧ d ≤ 31 ∧ hh ≤ 23 ∧ mi ≤ 59 ∧ ss ≤ 60)) :
    utcGetTime (dateTimeText y mo d hh mi ss) = none := by
  have e6 : readNum 2 (pad2 ss) = some (ss, []) := by
    have := readNum_pad2 ss hss []
    rwa [List.append_nil] at this
  have hne : ∀ (c : Char) (l : Str), ¬ (c :: l = []) := fun c l hc => by simp at hc
  unfold utcGetTime dateTimeText
  simp only
  rw [dropWhile_isspace_pad4, readNum_pad4 y hy]
  simp only [expectChar, if_true, hne, if_false]
  rw [readNum_pad2 mo hmo]
  simp only [expectChar, if_true, hne, if_false]
  by_cases c1 : 1 ≤ mo ∧ mo ≤ 12
  swap
  · rw [if_pos c1]
  rw [if_neg (not_not.mpr c1), head_isspace_pad2]
  simp only [Bool.false_eq_true, if_false]
  rw [readNum_pad2 d hd]
  simp only [hne, if_false]
  by_cases c2 : 1 ≤ d ∧ d ≤ 31
  swap
  · rw [if_pos c2]
  rw [if_neg (not_not.mpr c2), dropWhile_isspace_pad2 hh, readNum_pad2 hh hh9]
  simp only [expectChar, if_true, hne, if_false]
  by_cases c3 : hh ≤ 23
  swap
  · rw [if_pos c3]
  rw [if_neg (not_not.mpr c3), readNum_pad2 mi hmi]
  simp only [expectChar, if_true, hne, if_false]
  by_cases c4 : mi ≤ 59
  swap
  · rw [if_pos c4]
  rw [if_neg (not_not.mpr c4), e6]
  simp only
  have c5 : ¬ ss ≤ 60 := fun c5 => hbad ⟨c1.1, c1.2, c2.1, c2.2, c3, c4, c5⟩
  rw [if_pos c5]
theorem parseDateTimeString_of_get_time_none (h : Host) (s : Str) (hn : h.get_time s = none) :
    parseDateTimeString h s = 0 := by
  simp [parseDateTimeString, hn]

/-! ## The field count of the decoder and the pieces of the line -/

theorem splitAll_eq_singleton_nil (d : Char) (l : Str) (h : splitAll d l = [[]]) : l = [] := by
  cases l with
  | nil => rfl
  | cons c cs =>
    by_cases hc : c = d
    · simp only [splitAll, hc, if_true, List.cons.injEq, true_and] at h
      exact absurd h (splitAll_ne_nil d cs)
    · rcases hs : splitAll d cs with _ | ⟨g, gs⟩
      · exact absurd hs (splitAll_ne_nil d cs)
      · simp [splitAll, hc, hs] at h

theorem pieces_eq_dropLast (d : Char) (l : Str) :
    pieces d l
      = if (splitAll d l).getLast? = some [] then (splitAll d l).dropLast
        else splitAll d l := by
  induction l with
  | nil => simp [pieces, splitAll]
  | cons c cs ih =>
    rcases hs : splitAll d cs with _ | ⟨g, gs⟩
    · exact absurd hs (splitAll_ne_nil d cs)
    by_cases hc : c = d
    · simp only [pieces, splitAll, hc, if_true, hs, List.getLast?_cons_cons,
        List.dropLast_cons₂]
      rw [ih, hs]
      split <;> rfl
    · rw [hs] at ih
      rcases gs with _ | ⟨g2, gs2⟩
      · by_cases hg : g = []
        · subst hg
          have hcs : cs = [] := splitAll_eq_singleton_nil d cs hs
          subst hcs
          simp [pieces, splitAll, hc]
        · have hp : pieces d cs = [g] := by
            rw [ih]
            simp [hg]
          simp [pieces, splitAll, hc, hs, hp]
      · simp only [List.getLast?_cons_cons, List.dropLast_cons₂] at ih
        by_cases hl : (g2 :: gs2).getLast? = some []
        · rw [if_pos hl] at ih
          simp [pieces, splitAll, hc, hs, ih, hl]
        · rw [if_neg hl] at ih
          simp [pieces, splitAll, hc, hs, ih, hl]

theorem pieces_tail_length (line : Str) (hne : line ≠ []) :
    (pieces '|' line).tail.length = countedFields line := by
  rcases hs : splitAll '|' line with _ | ⟨tag, fs⟩
  · exact absurd hs (splitAll_ne_nil _ line)
  rw [pieces_eq_dropLast, countedFields, recordFields, hs, List.tail_cons]
  rcases fs with _ | ⟨f, fs2⟩
  · have htag : tag ≠ [] := by
      intro ht
      subst ht
      exact hne (splitAll_eq_singleton_nil _ line hs)
    simp [htag]
  · simp only [List.getLast?_cons_cons, List.dropLast_cons₂]
    split
    · simp
    · simp

theorem yields_afterTag (line : Str) : Yields '|' (afterTag line) (pieces '|' line).tail :=
  (getline_yields '|' (IStream.open line) (pieces '|' line) (yields_open '|' line)).2

theorem partsReadCH_of_yields (ss : IStream) (L : List Str) (hy : Yields '|' ss L) :
    partsReadCH ss = min 2 L.length := by
  obtain ⟨e1, y1⟩ := getline_yields _ _ _ hy
  obtain ⟨e2, _⟩ := getline_yields _ _ _ y1
  unfold partsReadCH
  simp only [e1, e2]
  rcases L with _ | ⟨a, _ | ⟨b, L⟩⟩ <;> simp

theorem partsReadPG_of_yields (ss : IStream) (L : List Str) (hy : Yields '|' ss L) :
    partsReadPG ss = min 6 L.length := by
  obtain ⟨e1, y1⟩ := getline_yields _ _ _ hy
  obtain ⟨e2, y2⟩ := getline_yields _ _ _ y1
  obtain ⟨e3, y3⟩ := getline_yields _ _ _ y2
  obtain ⟨e4, y4⟩ := getline_yields _ _ _ y3
  obtain ⟨e5, y5⟩ := getline_yields _ _ _ y4
  obtain ⟨e6, _⟩ := getline_yields _ _ _ y5
  unfold partsReadPG
  simp only [e1, e2, e3, e4, e5, e6]
  rcases L with _ | ⟨a, _ | ⟨b, _ | ⟨c, _ | ⟨d, _ | ⟨e, _ | ⟨f, L⟩⟩⟩⟩⟩⟩ <;> simp

theorem parseCH_of_partsRead (ss : IStream) (p : Parser) (hn : partsReadCH ss ≠ 2) :
    parseCH ss p = p := by
  unfold partsReadCH at hn
  unfold parseCH
  simp only at hn ⊢
  rw [if_neg hn]

theorem parsePG_of_partsRead (h : Host) (ss : IStream) (p : Parser)
    (hn : partsReadPG ss ≠ 6) : parsePG h ss p = p := by
  unfold partsReadPG at hn
  unfold parsePG
  simp only at hn ⊢
  rw [if_neg hn]

theorem pieces_chLine (idField name : Str) (hi : '|' ∉ idField) :
    pieces '|' (chLine idField name) = ['C', 'H'] :: idField :: pieces '|' name := by
  have e0 : chLine idField name = ['C', 'H'] ++ '|' :: (idField ++ '|' :: name) := by
    simp [chLine]
  have hCH : '|' ∉ ['C', 'H'] := by decide
  rw [e0, pieces_append_delim _ _ _ hCH, pieces_append_delim _ _ _ hi]

theorem pieces_pgLine (c p s e name desc : Str)
    (hc : '|' ∉ c) (hp : '|' ∉ p) (hs : '|' ∉ s) (he : '|' ∉ e) (hn : '|' ∉ name) :
    pieces '|' (pgLine c p s e name desc)
      = ['P', 'G'] :: c :: p :: s :: e :: name :: pieces '|' desc := by
  have e0 : pgLine c p s e name desc
      = ['P', 'G'] ++ '|' :: (c ++ '|' :: (p ++ '|' :: (s ++ '|' :: (e ++ '|'
          :: (name ++ '|' :: desc))))) := by
    simp [pgLine]
  have hPG : '|' ∉ ['P', 'G'] := by decide
  rw [e0, pieces_append_delim _ _ _ hPG, pieces_append_delim _ _ _ hc,
    pieces_append_delim _ _ _ hp, pieces_append_delim _ _ _ hs, pieces_append_delim _ _ _ he,
    pieces_append_delim _ _ _ hn]

/-! ## The claims -/

/-- C1. After any load, the point query `getProgramsOnNow` returns, for every time `t`, exactly
the stored programs of the channel with `start <= t < end`, in stored order; a stored program
is returned at its start and one millisecond before its end, and not at its end. -/
theorem getProgramsOnNow_spec (h : Host) (p0 : Parser) (file : Option Str) (channelId : Int) :
    (∀ t : Int,
      getProgramsOnNow (parseDataFromFile h p0 file).2 channelId t
        = (getProgramsForChannel (parseDataFromFile h p0 file).2 channelId).filter (airsAt t))
    ∧ ∀ pr ∈ getProgramsForChannel (parseDataFromFile h p0 file).2 channelId,
        pr ∈ getProgramsOnNow (parseDataFromFile h p0 file).2 channelId pr.startTimeMillis
        ∧ pr ∈ getProgramsOnNow (parseDataFromFile h p0 file).2 channelId (pr.endTimeMillis - 1)
        ∧ pr ∉ getProgramsOnNow (parseDataFromFile h p0 file).2 channelId pr.endTimeMillis := by
  refine ⟨fun t => getProgramsOnNow_eq_filter _ _ _, fun pr hin => ?_⟩
  have hv := loaded_programs_valid h p0 file channelId pr hin
  simp only [getProgramsOnNow_eq_filter, List.mem_filter, airsAt, decide_eq_true_eq]
  refine ⟨⟨hin, le_refl _, hv.2⟩, ⟨hin, by omega, by omega⟩, fun hc => ?_⟩
  omega

/-- Witness of C1 on the self-test file `test_data_epg_query.txt`. -/
theorem getProgramsOnNow_spec_witness :
    epgQueryProgram
        ∈ getProgramsForChannel (parseDataFromFile utcHost Parser.empty (some epgQueryFile)).2 1
    ∧ epgQueryProgram
        ∈ getProgramsOnNow (parseDataFromFile utcHost Parser.empty (some epgQueryFile)).2 1
            epgQueryProgram.startTimeMillis
    ∧ epgQueryProgram
        ∈ getProgramsOnNow (parseDataFromFile utcHost Parser.empty (some epgQueryFile)).2 1
            (epgQueryProgram.endTimeMillis - 1)
    ∧ epgQueryProgram
        ∉ getProgramsOnNow (parseDataFromFile utcHost Parser.empty (some epgQueryFile)).2 1
            epgQueryProgram.endTimeMillis :=
  ⟨by decide,
    (getProgramsOnNow_spec utcHost Parser.empty (some epgQueryFile) 1).2 epgQueryProgram
      (by decide)⟩

/-- C2. After any load and for every window with `rangeStart < rangeEnd`, the range query
`getProgramsForTimeRange` returns exactly the stored programs of the channel with
`start < rangeEnd` and `end > rangeStart`, in stored order; so a stored program that overlaps
the window is returned, and no stored program is returned for a window that begins at its
end. -/
theorem getProgramsForTimeRange_spec (h : Host) (p0 : Parser) (file : Option Str)
    (channelId rangeStart rangeEnd : Int) (hlt : rangeStart < rangeEnd) :
    getProgramsForTimeRange (parseDataFromFile h p0 file).2 channelId rangeStart rangeEnd
        = (getProgramsForChannel (parseDataFromFile h p0 file).2 channelId).filter
            (overlaps rangeStart rangeEnd)
    ∧ (∀ pr ∈ getProgramsForChannel (parseDataFromFile h p0 file).2 channelId,
        pr.startTimeMillis < rangeEnd → pr.endTimeMillis > rangeStart →
          pr ∈ getProgramsForTimeRange (parseDataFromFile h p0 file).2 channelId
            rangeStart rangeEnd)
    ∧ ∀ pr ∈ getProgramsForChannel (parseDataFromFile h p0 file).2 channelId,
        ∀ windowEnd : Int,
          pr ∉ getProgramsForTimeRange (parseDataFromFile h p0 file).2 channelId
            pr.endTimeMillis windowEnd := by
  refine ⟨getProgramsForTimeRange_eq_filter _ _ _ _ hlt, fun pr hin h1 h2 => ?_,
    fun pr hin windowEnd hc => ?_⟩
  · rw [getProgramsForTimeRange_eq_filter _ _ _ _ hlt]
    simp only [List.mem_filter, overlaps, decide_eq_true_eq]
    exact ⟨hin, h1, h2⟩
  · by_cases hw : pr.endTimeMillis < windowEnd
    · rw [getProgramsForTimeRange_eq_filter _ _ _ _ hw] at hc
      simp only [List.mem_filter, overlaps, decide_eq_true_eq] at hc
      omega
    · simp [getProgramsForTimeRange, hw] at hc

/-- Witness of C2: the query of the self-test (`main.cpp`, Test 6), the window 09:30 to 10:30
over the program 09:00 to 10:00 of `test_data_epg_query.txt`. -/
theorem getProgramsForTimeRange_spec_witness :
    parseDateTimeString utcHost "2025-04-16 09:30:00".toList
        < parseDateTimeString utcHost "2025-04-16 10:30:00".toList
    ∧ getProgramsForTimeRange (parseDataFromFile utcHost Parser.empty (some epgQueryFile)).2 1
          (parseDateTimeString utcHost "2025-04-16 09:30:00".toList)
          (parseDateTimeString utcHost "2025-04-16 10:30:00".toList)
        = (getProgramsForChannel
            (parseDataFromFile utcHost Parser.empty (some epgQueryFile)).2 1).filter
            (overlaps (parseDateTimeString utcHost "2025-04-16 09:30:00".toList)
              (parseDateTimeString utcHost "2025-04-16 10:30:00".toList))
    ∧ getProgramsForTimeRange (parseDataFromFile utcHost Parser.empty (some epgQueryFile)).2 1
          (parseDateTimeString utcHost "2025-04-16 09:30:00".toList)
          (parseDateTimeString utcHost "2025-04-16 10:30:00".toList)
        = [epgQueryProgram] :=
  ⟨by decide,
    (getProgramsForTimeRange_spec utcHost Parser.empty (some epgQueryFile) 1 _ _ (by decide)).1,
    by decide⟩

/-- C3. When every line of the input is a valid `CH` line (identifier field a decimal integer
within `int` range, name field not empty), the load succeeds and `getChannels` returns one
channel per line, in file order, with the value of the line's identifier and the line's name
text; lines that repeat an identifier give separate entries. -/
theorem load_valid_channel_lines (h : Host) (p0 : Parser) (content : Str)
    (recs : List (Str × Str))
    (hlines : fileLines content = recs.map (fun r => chLine r.1 r.2))
    (hvalid : ∀ r ∈ recs, (wholeInt r.1).isSome = true ∧ r.2 ≠ [] ∧ '|' ∉ r.2) :
    (parseDataFromFile h p0 (some content)).1 = true
    ∧ getChannels (parseDataFromFile h p0 (some content)).2
        = recs.map (fun r => { channelId := (wholeInt r.1).getD 0, channelName := r.2 }) := by
  refine ⟨rfl, ?_⟩
  rw [load_eq_foldl, hlines, getChannels, foldl_chLines h recs _ hvalid]
  simp [Parser.empty]

/-- Witness of C3: three valid `CH` lines, the first two with the same identifier. -/
theorem load_valid_channel_lines_witness :
    (parseDataFromFile utcHost Parser.empty (some threeChannelsFile)).1 = true
    ∧ getChannels (parseDataFromFile utcHost Parser.empty (some threeChannelsFile)).2
        = [("10".toList, "Valid Name".toList), ("10".toList, "Second".toList),
            ("-3".toList, "Third".toList)].map
            (fun r => { channelId := (wholeInt r.1).getD 0, channelName := r.2 }) :=
  load_valid_channel_lines utcHost Parser.empty threeChannelsFile
    [("10".toList, "Valid Name".toList), ("10".toList, "Second".toList),
      ("-3".toList, "Third".toList)]
    (by decide) (by decide)

/-- C4, counterexample. The line `PG|1|101|2025-01-01 10:00:00|2025-01-01 11:00:00|Prog1|` has
six fields after its tag, its identifiers parse and its times are in order, yet nothing is
stored for it: the sixth field is empty and ends the line, so the sixth `getline` fails. -/
theorem pg_empty_description_not_stored :
    (recordFields (pgLine "1".toList "101".toList "2025-01-01 10:00:00".toList
        "2025-01-01 11:00:00".toList "Prog1".toList [])).length = 6
    ∧ stoi "1".toList = some 1 ∧ stoi "101".toList = some 101
    ∧ 0 < parseDateTimeString utcHost "2025-01-01 10:00:00".toList
    ∧ parseDateTimeString utcHost "2025-01-01 10:00:00".toList
        < parseDateTimeString utcHost "2025-01-01 11:00:00".toList
    ∧ getProgramsForChannel
        (parseDataFromFile utcHost Parser.empty
          (some (pgLine "1".toList "101".toList "2025-01-01 10:00:00".toList
            "2025-01-01 11:00:00".toList "Prog1".toList []))).2 1 = [] := by
  decide

/-- C4, amended. A line `PG|c|p|s|e|name|desc` with six fields, the last one not empty, in
which `c` and `p` parse as integers and `0 < encode(s) < encode(e)`, appends exactly one program
to the end of the collection of channel identifier `c`, with the parsed program identifier, the
encoded times and the text of the name and description fields; the channel list and the
collection of every other identifier are unchanged. This holds for the line processed in any
state, and so for a load whose last line it is, compared with the load of the lines before. -/
theorem pg_line_appends_program (h : Host) (c p s e name desc : Str) (cid pid : Int)
    (hc : '|' ∉ c) (hp : '|' ∉ p) (hs : '|' ∉ s) (he : '|' ∉ e) (hn : '|' ∉ name)
    (hd : '|' ∉ desc) (hdne : desc ≠ [])
    (hcid : stoi c = some cid) (hpid : stoi p = some pid)
    (hpos : 0 < parseDateTimeString h s)
    (hlt : parseDateTimeString h s < parseDateTimeString h e) :
    (∀ st : Parser,
      getChannels (parseRecord h st (pgLine c p s e name desc)) = getChannels st
      ∧ getProgramsForChannel (parseRecord h st (pgLine c p s e name desc)) cid
          = getProgramsForChannel st cid
              ++ [⟨pid, name, desc, parseDateTimeString h s, parseDateTimeString h e⟩]
      ∧ ∀ id : Int, id ≠ cid →
          getProgramsForChannel (parseRecord h st (pgLine c p s e name desc)) id
            = getProgramsForChannel st id)
    ∧ ∀ (p0 : Parser) (before after : Str),
        fileLines after = fileLines before ++ [pgLine c p s e name desc] →
        getChannels (parseDataFromFile h p0 (some after)).2
            = getChannels (parseDataFromFile h p0 (some before)).2
        ∧ getProgramsForChannel (parseDataFromFile h p0 (some after)).2 cid
            = getProgramsForChannel (parseDataFromFile h p0 (some before)).2 cid
                ++ [⟨pid, name, desc, parseDateTimeString h s, parseDateTimeString h e⟩]
        ∧ ∀ id : Int, id ≠ cid →
            getProgramsForChannel (parseDataFromFile h p0 (some after)).2 id
              = getProgramsForChannel (parseDataFromFile h p0 (some before)).2 id := by
  have key : ∀ st : Parser, storeRecord h st (pgLine c p s e name desc)
      = { st with programsByChannelId :=
            (mapPushBack st.programsByChannelId cid
              ⟨pid, name, desc, parseDateTimeString h s, parseDateTimeString h e⟩) } := by
    intro st
    rw [storeRecord_pgLine h st c p s e name desc hc hp hs he hn, pieces_no_delim _ _ hd hdne,
      storePG_full h st c p s e name desc cid pid hcid hpid hpos hlt]
  have line : ∀ st : Parser,
      getChannels (storeRecord h st (pgLine c p s e name desc)) = getChannels st
      ∧ getProgramsForChannel (storeRecord h st (pgLine c p s e name desc)) cid
          = getProgramsForChannel st cid
              ++ [⟨pid, name, desc, parseDateTimeString h s, parseDateTimeString h e⟩]
      ∧ ∀ id : Int, id ≠ cid →
          getProgramsForChannel (storeRecord h st (pgLine c p s e name desc)) id
            = getProgramsForChannel st id := by
    intro st
    rw [key st]
    exact ⟨rfl, getProgramsForChannel_pushBack_same st cid _,
      fun id hid => getProgramsForChannel_pushBack_ne st cid id _ hid⟩
  refine ⟨fun st => ?_, fun p0 before after hl => ?_⟩
  · rw [parseRecord_eq]
    exact line st
  · rw [load_eq_foldl, load_eq_foldl, hl, List.foldl_append]
    exact line _

/-- Witness of C4 (amended): the `PG` line of the self-test file `test_data_valid_pg.txt`, after
its `CH` line. -/
theorem pg_line_appends_program_witness :
    getChannels (parseDataFromFile utcHost Parser.empty (some validPgFile)).2
        = getChannels (parseDataFromFile utcHost Parser.empty (some "CH|1|Chan1".toList)).2
    ∧ getProgramsForChannel (parseDataFromFile utcHost Parser.empty (some validPgFile)).2 1
        = getProgramsForChannel
            (parseDataFromFile utcHost Parser.empty (some "CH|1|Chan1".toList)).2 1
          ++ [⟨101, "Prog1".toList, "Desc1".toList,
              parseDateTimeString utcHost "2025-01-01 10:00:00".toList,
              parseDateTimeString utcHost "2025-01-01 11:00:00".toList⟩]
    ∧ ∀ id : Int, id ≠ 1 →
        getProgramsForChannel (parseDataFromFile utcHost Parser.empty (some validPgFile)).2 id
          = getProgramsForChannel
              (parseDataFromFile utcHost Parser.empty (some "CH|1|Chan1".toList)).2 id :=
  (pg_line_appends_program utcHost "1".toList "101".toList "2025-01-01 10:00:00".toList
    "2025-01-01 11:00:00".toList "Prog1".toList "Desc1".toList 1 101
    (by decide) (by decide) (by decide) (by decide) (by decide) (by decide) (by decide)
    (by decide) (by decide) (by decide) (by decide)).2
    Parser.empty "CH|1|Chan1".toList validPgFile (by decide)

/-- C5. After any load, every program that `getProgramsForChannel` returns, for every
identifier, has `start > 0` and `start < end`; a `PG` line whose decoded start is not positive
(the sentinel 0 of a failed decode included) or is not before its decoded end (an end that
failed to decode included) stores nothing. -/
theorem stored_programs_valid (h : Host) :
    (∀ (p0 : Parser) (file : Option Str) (id : Int) (pr : ProgramInfo),
      pr ∈ getProgramsForChannel (parseDataFromFile h p0 file).2 id →
        pr.startTimeMillis > 0 ∧ pr.startTimeMillis < pr.endTimeMillis)
    ∧ ∀ (st : Parser) (c p s e name desc : Str),
        '|' ∉ c → '|' ∉ p → '|' ∉ s → '|' ∉ e → '|' ∉ name →
        (parseDateTimeString h s = 0 ∨ parseDateTimeString h e = 0
          ∨ parseDateTimeString h s ≥ parseDateTimeString h e
          ∨ ¬ (0 < parseDateTimeString h s)) →
        parseRecord h st (pgLine c p s e name desc) = st := by
  refine ⟨fun p0 file id pr hin => loaded_programs_valid h p0 file id pr hin,
    fun st c p s e name desc hc hp hs he hn hbad => ?_⟩
  rw [parseRecord_eq]
  apply storeRecord_pgLine_invalid_times h st c p s e name desc hc hp hs he hn
  omega

/-- Witness of C5: the stored program of `test_data_epg_query.txt`, and a `PG` line whose end
is an hour before its start. -/
theorem stored_programs_valid_witness :
    (epgQueryProgram.startTimeMillis > 0
      ∧ epgQueryProgram.startTimeMillis < epgQueryProgram.endTimeMillis)
    ∧ parseRecord utcHost Parser.empty invertedPgLine = Parser.empty :=
  ⟨(stored_programs_valid utcHost).1 Parser.empty (some epgQueryFile) 1 epgQueryProgram
      (by decide),
    (stored_programs_valid utcHost).2 Parser.empty "1".toList "102".toList
      "2025-01-01 11:00:00".toList "2025-01-01 10:00:00".toList "Inverted".toList
      "Desc".toList (by decide) (by decide) (by decide) (by decide) (by decide)
      (Or.inr (Or.inr (Or.inl (by decide))))⟩

/-- C6. The method `parseDataFromFile` returns `false` exactly when the file cannot be opened;
for a file that opens it returns `true`, whatever the file holds. -/
theorem parseDataFromFile_fails_iff (h : Host) (p0 : Parser) (file : Option Str) :
    ((parseDataFromFile h p0 file).1 = false ↔ file = none)
    ∧ ∀ content : Str, (parseDataFromFile h p0 (some content)).1 = true := by
  refine ⟨?_, fun content => rfl⟩
  cases file with
  | none => simp [parseDataFromFile]
  | some content => simp [parseDataFromFile]

/-- C7, counterexample. The line `CH|1|a|b` has three fields after its tag and still stores a
channel; a `PG` line with seven fields after its tag still stores a program. -/
theorem extra_fields_still_stored :
    (recordTag longChLine = ['C', 'H'] ∧ (recordFields longChLine).length = 3
      ∧ getChannels (parseDataFromFile utcHost Parser.empty (some longChLine)).2
          = [⟨1, ['a']⟩])
    ∧ (recordTag longPgLine = ['P', 'G'] ∧ (recordFields longPgLine).length = 7
      ∧ getProgramsForChannel (parseDataFromFile utcHost Parser.empty (some longPgLine)).2 1
          = [⟨101, "Prog1".toList, "Desc1".toList, 1735725600000, 1735729200000⟩]) := by
  decide

/-- C7, amended. A line tagged `CH` with fewer than 2 fields after the tag, and a line tagged
`PG` with fewer than 6, stores nothing: the state is the same after the line as before, and the
load of a file is the load of the file without that line. -/
theorem short_record_not_stored (h : Host) (line : Str)
    (hshort : (recordTag line = ['C', 'H'] ∧ (recordFields line).length < 2)
      ∨ (recordTag line = ['P', 'G'] ∧ (recordFields line).length < 6)) :
    (∀ st : Parser, parseRecord h st line = st)
    ∧ ∀ (p0 : Parser) (content content2 : Str) (pre post : List Str),
        fileLines content = pre ++ line :: post → fileLines content2 = pre ++ post →
        parseDataFromFile h p0 (some content) = parseDataFromFile h p0 (some content2) := by
  have hid : ∀ st, storeRecord h st line = st := fun st => storeRecord_short h st line hshort
  refine ⟨fun st => ?_, fun p0 content content2 pre post hc hc2 =>
    load_without_line h line hid p0 content content2 pre post hc hc2⟩
  rw [parseRecord_eq]
  exact hid st

/-- Witness of C7 (amended): the `PG` line of the self-test file `test_data_incomplete.txt`,
which has two fields. -/
theorem short_record_not_stored_witness :
    ((recordTag incompleteFile = ['C', 'H'] ∧ (recordFields incompleteFile).length < 2)
      ∨ (recordTag incompleteFile = ['P', 'G'] ∧ (recordFields incompleteFile).length < 6))
    ∧ parseRecord utcHost Parser.empty incompleteFile = Parser.empty :=
  ⟨by decide, (short_record_not_stored utcHost incompleteFile (by decide)).1 Parser.empty⟩

/-- C8, counterexample. The identifier fields `12abc` and `1.5` are not, as a whole, decimal
integers, yet the `CH` lines that carry them store channels 12 and 1; the same for the channel
identifier `1x` of a `PG` line. -/
theorem identifier_with_trailing_text_stored :
    (wholeInt "12abc".toList = none
      ∧ getChannels (parseDataFromFile utcHost Parser.empty (some "CH|12abc|X".toList)).2
          = [⟨12, ['X']⟩])
    ∧ (wholeInt "1.5".toList = none
      ∧ getChannels (parseDataFromFile utcHost Parser.empty (some "CH|1.5|Y".toList)).2
          = [⟨1, ['Y']⟩])
    ∧ (wholeInt "1x".toList = none
      ∧ getProgramsForChannel
          (parseDataFromFile utcHost Parser.empty
            (some "PG|1x|101|2025-01-01 10:00:00|2025-01-01 11:00:00|Prog1|Desc1".toList)).2 1
          = [⟨101, "Prog1".toList, "Desc1".toList, 1735725600000, 1735729200000⟩]) := by
  decide

/-- C8, amended. A `CH` line whose identifier field does not start, after optional white space,
with an optionally signed run of decimal digits whose value is within `int` range (for example
`abc`, or a value beyond `int` range) stores no channel; the same holds for a `PG` line whose
channel-identifier or program-identifier field does not start so. The load goes on with the
following lines and reports success: it equals the load of the file without that line. -/
theorem unparsable_identifier_not_stored (h : Host) (line : Str)
    (hline : (∃ idField name : Str, line = chLine idField name ∧ '|' ∉ idField
        ∧ ∀ v, ¬ IntPrefix idField v)
      ∨ (∃ c p s e name desc : Str, line = pgLine c p s e name desc
        ∧ '|' ∉ c ∧ '|' ∉ p ∧ '|' ∉ s ∧ '|' ∉ e ∧ '|' ∉ name
        ∧ ((∀ v, ¬ IntPrefix c v) ∨ (∀ v, ¬ IntPrefix p v)))) :
    (∀ st : Parser, parseRecord h st line = st)
    ∧ ∀ (p0 : Parser) (content content2 : Str) (pre post : List Str),
        fileLines content = pre ++ line :: post → fileLines content2 = pre ++ post →
        parseDataFromFile h p0 (some content) = parseDataFromFile h p0 (some content2)
        ∧ (parseDataFromFile h p0 (some content)).1 = true := by
  have hid : ∀ st, storeRecord h st line = st := by
    intro st
    rcases hline with ⟨idField, name, rfl, hb, hno⟩ | ⟨c, p, s, e, name, desc, rfl, hc, hp, hs,
      he, hn, hno⟩
    · rw [storeRecord_chLine h st idField name hb]
      exact storeCH_bad_id st idField _ (stoi_eq_none_of_no_leading_int idField hno)
    · rw [storeRecord_pgLine h st c p s e name desc hc hp hs he hn]
      apply storePG_bad_id
      rcases hno with hno | hno
      · exact Or.inl (stoi_eq_none_of_no_leading_int c hno)
      · exact Or.inr (stoi_eq_none_of_no_leading_int p hno)
  refine ⟨fun st => ?_, fun p0 content content2 pre post hc hc2 =>
    ⟨load_without_line h line hid p0 content content2 pre post hc hc2, rfl⟩⟩
  rw [parseRecord_eq]
  exact hid st

/-- Witness of C8 (amended): the line of the self-test file `test_data_invalid_id.txt`, and a
`CH` line whose identifier is one more than the greatest `int`. -/
theorem unparsable_identifier_not_stored_witness :
    parseRecord utcHost Parser.empty invalidIdFile = Parser.empty
    ∧ parseRecord utcHost Parser.empty (chLine "2147483648".toList "Big".toList)
        = Parser.empty :=
  ⟨(unparsable_identifier_not_stored utcHost invalidIdFile
      (Or.inl ⟨"abc".toList, "Invalid".toList, by decide, by decide, fun v hv => by
        have e := stoi_of_intPrefix _ v hv
        rw [show stoi "abc".toList = none by decide] at e
        exact absurd e (by simp)⟩)).1 Parser.empty,
    (unparsable_identifier_not_stored utcHost (chLine "2147483648".toList "Big".toList)
      (Or.inl ⟨"2147483648".toList, "Big".toList, rfl, by decide, fun v hv => by
        have e := stoi_of_intPrefix _ v hv
        rw [show stoi "2147483648".toList = none by decide] at e
        exact absurd e (by simp)⟩)).1 Parser.empty⟩

/-- C9. A file made of one valid `CH` line, one `PG` line with fewer than 6 fields and one `PG`
line whose start is not before its end, in any order, loads with success, one channel and no
program for any identifier. -/
theorem malformed_records_resilience (h : Host) (p0 : Parser) (content : Str)
    (idField name short c p s e n d : Str) (v : Int)
    (hperm : (fileLines content).Perm [chLine idField name, short, pgLine c p s e n d])
    (hv : wholeInt idField = some v) (hne : name ≠ []) (hbar : '|' ∉ name)
    (hshort : recordTag short = ['P', 'G'] ∧ (recordFields short).length < 6)
    (hc : '|' ∉ c) (hp : '|' ∉ p) (hs : '|' ∉ s) (he : '|' ∉ e) (hn : '|' ∉ n)
    (hinv : parseDateTimeString h e ≤ parseDateTimeString h s) :
    (parseDataFromFile h p0 (some content)).1 = true
    ∧ getChannels (parseDataFromFile h p0 (some content)).2 = [⟨v, name⟩]
    ∧ ∀ id : Int, getProgramsForChannel (parseDataFromFile h p0 (some content)).2 id = [] := by
  have h1 : ∀ st, storeRecord h st short = st :=
    fun st => storeRecord_short h st short (Or.inr hshort)
  have h2 : ∀ st, storeRecord h st (pgLine c p s e n d) = st :=
    fun st => storeRecord_pgLine_invalid_times h st c p s e n d hc hp hs he hn (by omega)
  have hcases : ∀ x ∈ fileLines content,
      x = chLine idField name ∨ ∀ st, storeRecord h st x = st := by
    intro x hx
    have := hperm.mem_iff.mp hx
    simp only [List.mem_cons, List.mem_singleton, List.not_mem_nil, or_false] at this
    rcases this with rfl | rfl | rfl
    · exact Or.inl rfl
    · exact Or.inr h1
    · exact Or.inr h2
  have hfold : (fileLines content).foldl (storeRecord h) Parser.empty
      = [chLine idField name, short, pgLine c p s e n d].foldl (storeRecord h) Parser.empty := by
    apply List.Perm.foldl_eq' hperm
    intro x hx y hy z
    rcases hcases x hx with rfl | hxid
    · rcases hcases y hy with rfl | hyid
      · rfl
      · rw [hyid, hyid]
    · rw [hxid, hxid]
  have hstate : (parseDataFromFile h p0 (some content)).2
      = { Parser.empty with channels := Parser.empty.channels ++ [⟨v, name⟩] } := by
    rw [load_eq_foldl, hfold]
    simp only [List.foldl_cons, List.foldl_nil, h1, h2]
    exact storeRecord_chLine_valid h _ idField name v hv hne hbar
  refine ⟨rfl, ?_, fun id => ?_⟩
  · rw [hstate]
    simp [getChannels, Parser.empty]
  · rw [hstate]
    simp [getProgramsForChannel, Parser.empty, mapFind]

/-- Witness of C9: the truncated `PG` line first, then the `CH` line, then the inverted `PG`
line. -/
theorem malformed_records_resilience_witness :
    (parseDataFromFile utcHost Parser.empty (some mixedFile)).1 = true
    ∧ getChannels (parseDataFromFile utcHost Parser.empty (some mixedFile)).2
        = [⟨1, "Chan1".toList⟩]
    ∧ ∀ id : Int,
        getProgramsForChannel (parseDataFromFile utcHost Parser.empty (some mixedFile)).2 id
          = [] :=
  malformed_records_resilience utcHost Parser.empty mixedFile "1".toList "Chan1".toList
    "PG|1|102".toList "1".toList "102".toList "2025-01-01 11:00:00".toList
    "2025-01-01 10:00:00".toList "Inverted".toList "Desc".toList 1
    (by
      have e : fileLines mixedFile
          = ["PG|1|102".toList, chLine "1".toList "Chan1".toList,
              pgLine "1".toList "102".toList "2025-01-01 11:00:00".toList
                "2025-01-01 10:00:00".toList "Inverted".toList "Desc".toList] := by decide
      rw [e]
      exact List.Perm.swap _ _ _)
    (by decide) (by decide) (by decide) (by decide) (by decide) (by decide) (by decide)
    (by decide) (by decide) (by decide)

/-- C10. Loading a file `A` and then a file `B` with the same parser leaves the state that
loading `B` with a fresh parser leaves: the same return value, the same channels and, for every
identifier, the same programs. -/
theorem reload_replaces_state (h : Host) (p : Parser) (A B : Str) :
    parseDataFromFile h (parseDataFromFile h p (some A)).2 (some B)
        = parseDataFromFile h Parser.empty (some B)
    ∧ getChannels (parseDataFromFile h (parseDataFromFile h p (some A)).2 (some B)).2
        = getChannels (parseDataFromFile h Parser.empty (some B)).2
    ∧ ∀ id : Int,
        getProgramsForChannel
            (parseDataFromFile h (parseDataFromFile h p (some A)).2 (some B)).2 id
          = getProgramsForChannel (parseDataFromFile h Parser.empty (some B)).2 id :=
  ⟨rfl, rfl, fun _ => rfl⟩

/-- C13. For every state of the parser and every pair `rangeStart >= rangeEnd`, the range query
returns the empty list, whatever is stored for the channel. -/
theorem getProgramsForTimeRange_inverted (p : Parser) (channelId rangeStart rangeEnd : Int)
    (hge : rangeStart ≥ rangeEnd) :
    getProgramsForTimeRange p channelId rangeStart rangeEnd = [] := by
  unfold getProgramsForTimeRange
  rw [if_pos hge]

/-- Witness of C13: the program of `test_data_epg_query.txt` passes the overlap test of the
inverted pair (09:20, 09:10), and the query returns nothing. -/
theorem getProgramsForTimeRange_inverted_witness :
    epgQueryProgram
        ∈ getProgramsForChannel (parseDataFromFile utcHost Parser.empty (some epgQueryFile)).2 1
    ∧ overlaps 1744795200000 1744794600000 epgQueryProgram = true
    ∧ getProgramsForTimeRange (parseDataFromFile utcHost Parser.empty (some epgQueryFile)).2 1
        1744795200000 1744794600000 = [] :=
  ⟨by decide, by decide,
    getProgramsForTimeRange_inverted _ 1 1744795200000 1744794600000 (by decide)⟩

/-- C18. The file `test_data_valid_ch.txt` that `main` writes holds the one line
`CH|10|Valid Name`; on every host the load succeeds and stores exactly one channel, whose
identifier is 10, not the 1 that Test 1 of `run_parser_tests` asserts. -/
theorem valid_ch_file_stores_channel_10 (h : Host) (p0 : Parser) :
    (parseDataFromFile h p0 (some validChFile)).1 = true
    ∧ getChannels (parseDataFromFile h p0 (some validChFile)).2
        = [⟨10, "Valid Name".toList⟩]
    ∧ (getChannels (parseDataFromFile h p0 (some validChFile)).2).map ChannelInfo.channelId
        ≠ [1] := by
  have hl : fileLines validChFile = [chLine "10".toList "Valid Name".toList] := by decide
  have hs : (parseDataFromFile h p0 (some validChFile)).2
      = { Parser.empty with
            channels := Parser.empty.channels ++ [⟨10, "Valid Name".toList⟩] } := by
    rw [load_eq_foldl, hl]
    simp only [List.foldl_cons, List.foldl_nil]
    exact storeRecord_chLine_valid h _ _ _ 10 (by decide) (by decide) (by decide)
  refine ⟨rfl, ?_, ?_⟩
  · rw [hs]
    simp [getChannels, Parser.empty]
  · rw [hs]
    simp [getChannels, Parser.empty]

/-- C19. A load of a file that cannot be opened returns `false` and leaves both containers
empty, whatever the parser held before. -/
theorem failed_load_clears_state (h : Host) (p : Parser) :
    (parseDataFromFile h p none).1 = false
    ∧ getChannels (parseDataFromFile h p none).2 = []
    ∧ ∀ id : Int, getProgramsForChannel (parseDataFromFile h p none).2 id = [] :=
  ⟨rfl, rfl, fun _ => rfl⟩

/-- C20. For every state of the parser, every channel and every time `t` of type `long long`
below the greatest value, the point query at `t` returns the list that the range query over
`t` and `t + 1` returns, the sum taken in 64-bit arithmetic. -/
theorem getProgramsOnNow_eq_range (p : Parser) (channelId t : Int)
    (hlo : -(2 : Int) ^ 63 ≤ t) (hhi : t < 2 ^ 63 - 1) :
    getProgramsOnNow p channelId t
      = getProgramsForTimeRange p channelId t (wrapInt64 (t + 1)) := by
  have hw : wrapInt64 (t + 1) = t + 1 := by
    unfold wrapInt64
    norm_num at hlo hhi ⊢
    omega
  rw [hw, getProgramsOnNow_eq_filter, getProgramsForTimeRange_eq_filter _ _ _ _ (by omega)]
  congr 1
  funext pr
  simp only [airsAt, overlaps, decide_eq_decide]
  constructor <;> intro hh <;> constructor <;> omega

/-- Witness of C20: the program of `test_data_epg_query.txt` at its start. -/
theorem getProgramsOnNow_eq_range_witness :
    getProgramsOnNow (parseDataFromFile utcHost Parser.empty (some epgQueryFile)).2 1
        1744794000000
      = getProgramsForTimeRange (parseDataFromFile utcHost Parser.empty (some epgQueryFile)).2 1
          1744794000000 (wrapInt64 (1744794000000 + 1))
    ∧ getProgramsOnNow (parseDataFromFile utcHost Parser.empty (some epgQueryFile)).2 1
        1744794000000 = [epgQueryProgram] :=
  ⟨getProgramsOnNow_eq_range _ 1 1744794000000 (by decide) (by decide), by decide⟩

/-- C14. A valid `PG` line whose channel identifier is the identifier of no `CH` line of the
file is stored: the program is returned by `getProgramsForChannel`, by the point query at every
time from its start to before its end and by the range query for every window it overlaps; no
channel of `getChannels` has that identifier; and the three program queries return the same
lists, for every identifier, as after a load of the same file preceded by a `CH` line. -/
theorem orphan_program_stored (h : Host) (p0 : Parser) (content : Str)
    (c p s e name desc : Str) (cid pid : Int)
    (hc : '|' ∉ c) (hp : '|' ∉ p) (hs : '|' ∉ s) (he : '|' ∉ e) (hn : '|' ∉ name)
    (hd : '|' ∉ desc) (hdne : desc ≠ [])
    (hcid : stoi c = some cid) (hpid : stoi p = some pid)
    (hpos : 0 < parseDateTimeString h s)
    (hlt : parseDateTimeString h s < parseDateTimeString h e)
    (hmem : pgLine c p s e name desc ∈ fileLines content)
    (hnoch : ∀ line ∈ fileLines content, recordTag line = ['C', 'H'] →
      (recordFields line).head?.bind stoi ≠ some cid) :
    (⟨pid, name, desc, parseDateTimeString h s, parseDateTimeString h e⟩ : ProgramInfo)
        ∈ getProgramsForChannel (parseDataFromFile h p0 (some content)).2 cid
    ∧ (∀ t : Int, parseDateTimeString h s ≤ t → t < parseDateTimeString h e →
        (⟨pid, name, desc, parseDateTimeString h s, parseDateTimeString h e⟩ : ProgramInfo)
          ∈ getProgramsOnNow (parseDataFromFile h p0 (some content)).2 cid t)
    ∧ (∀ rs re : Int, rs < re → parseDateTimeString h s < re → parseDateTimeString h e > rs →
        (⟨pid, name, desc, parseDateTimeString h s, parseDateTimeString h e⟩ : ProgramInfo)
          ∈ getProgramsForTimeRange (parseDataFromFile h p0 (some content)).2 cid rs re)
    ∧ (∀ ch ∈ getChannels (parseDataFromFile h p0 (some content)).2, ch.channelId ≠ cid)
    ∧ ∀ (withChannel chl : Str), fileLines withChannel = chl :: fileLines content →
        recordTag chl = ['C', 'H'] →
        ∀ id : Int,
          getProgramsForChannel (parseDataFromFile h p0 (some withChannel)).2 id
              = getProgramsForChannel (parseDataFromFile h p0 (some content)).2 id
          ∧ (∀ t : Int,
              getProgramsOnNow (parseDataFromFile h p0 (some withChannel)).2 id t
                = getProgramsOnNow (parseDataFromFile h p0 (some content)).2 id t)
          ∧ ∀ rs re : Int,
              getProgramsForTimeRange (parseDataFromFile h p0 (some withChannel)).2 id rs re
                = getProgramsForTimeRange (parseDataFromFile h p0 (some content)).2 id rs re := by
  have hline : getProgramsForChannel (storeRecord h Parser.empty (pgLine c p s e name desc)) cid
      = [⟨pid, name, desc, parseDateTimeString h s, parseDateTimeString h e⟩] := by
    rw [storeRecord_pgLine h _ c p s e name desc hc hp hs he hn, pieces_no_delim _ _ hd hdne,
      storePG_full h _ c p s e name desc cid pid hcid hpid hpos hlt,
      getProgramsForChannel_pushBack_same, getProgramsForChannel_empty, List.nil_append]
  have hstored : (⟨pid, name, desc, parseDateTimeString h s, parseDateTimeString h e⟩ :
      ProgramInfo) ∈ getProgramsForChannel (parseDataFromFile h p0 (some content)).2 cid := by
    rw [load_programs]
    exact List.mem_flatMap.mpr ⟨_, hmem, by rw [hline]; simp⟩
  refine ⟨hstored, fun t h1 h2 => ?_, fun rs re h0 h1 h2 => ?_, fun ch hch hid => ?_,
    fun withChannel chl hl htag id => ?_⟩
  · rw [getProgramsOnNow_eq_filter]
    simp only [List.mem_filter, airsAt, decide_eq_true_eq]
    exact ⟨hstored, h1, h2⟩
  · rw [getProgramsForTimeRange_eq_filter _ _ _ _ h0]
    simp only [List.mem_filter, overlaps, decide_eq_true_eq]
    exact ⟨hstored, h1, h2⟩
  · rw [load_channels] at hch
    obtain ⟨line, hline1, hline2⟩ := List.mem_flatMap.mp hch
    obtain ⟨ht, hf⟩ := storeRecord_channel_mem h line ch hline2
    exact hnoch line hline1 ht (by rw [hf, hid])
  · have hsame : getProgramsForChannel (parseDataFromFile h p0 (some withChannel)).2 id
        = getProgramsForChannel (parseDataFromFile h p0 (some content)).2 id := by
      rw [load_programs, load_programs, hl, List.flatMap_cons,
        storeRecord_CH_no_program h chl id htag, List.nil_append]
    exact ⟨hsame, fun t => getProgramsOnNow_of_programs _ _ id t hsame,
      fun rs re => getProgramsForTimeRange_of_programs _ _ id rs re hsame⟩

/-- Witness of C14: a `PG` line for channel 7 in a file whose only `CH` line is for
channel 1. -/
theorem orphan_program_stored_witness :
    getProgramsForChannel (parseDataFromFile utcHost Parser.empty (some orphanFile)).2 7
        = [⟨101, "Orphan".toList, "Desc".toList, 1735725600000, 1735729200000⟩]
    ∧ (∀ ch ∈ getChannels (parseDataFromFile utcHost Parser.empty (some orphanFile)).2,
        ch.channelId ≠ 7)
    ∧ getProgramsForChannel (parseDataFromFile utcHost Parser.empty (some adoptedFile)).2 7
        = getProgramsForChannel (parseDataFromFile utcHost Parser.empty (some orphanFile)).2 7 :=
  ⟨by decide,
    (orphan_program_stored utcHost Parser.empty orphanFile "7".toList "101".toList
      "2025-01-01 10:00:00".toList "2025-01-01 11:00:00".toList "Orphan".toList "Desc".toList
      7 101 (by decide) (by decide) (by decide) (by decide) (by decide) (by decide) (by decide)
      (by decide) (by decide) (by decide) (by decide) (by decide) (by decide)).2.2.2.1,
    ((orphan_program_stored utcHost Parser.empty orphanFile "7".toList "101".toList
      "2025-01-01 10:00:00".toList "2025-01-01 11:00:00".toList "Orphan".toList "Desc".toList
      7 101 (by decide) (by decide) (by decide) (by decide) (by decide) (by decide) (by decide)
      (by decide) (by decide) (by decide) (by decide) (by decide) (by decide)).2.2.2.2
      adoptedFile "CH|7|Seven".toList (by decide) (by decide) 7).1⟩

/-- C15. After a load, for every identifier for which no line of the file stores a program,
`getProgramsForChannel` returns the empty list, and so do the point query for every time and
the range query for every window. The queries are functions of the state: they return a list
for every argument and leave the state as it is. -/
theorem unknown_channel_queries_empty (h : Host) (p0 : Parser) (content : Str) (id : Int)
    (hnone : ∀ line ∈ fileLines content,
      getProgramsForChannel (parseRecord h Parser.empty line) id = []) :
    getProgramsForChannel (parseDataFromFile h p0 (some content)).2 id = []
    ∧ (∀ t : Int, getProgramsOnNow (parseDataFromFile h p0 (some content)).2 id t = [])
    ∧ ∀ rs re : Int,
        getProgramsForTimeRange (parseDataFromFile h p0 (some content)).2 id rs re = [] := by
  have h0 : getProgramsForChannel (parseDataFromFile h p0 (some content)).2 id = [] := by
    rw [load_programs]
    apply List.flatMap_eq_nil_iff.mpr
    intro line hl
    rw [← parseRecord_eq]
    exact hnone line hl
  refine ⟨h0, fun t => ?_, fun rs re => ?_⟩
  · rw [getProgramsOnNow_eq_filter, h0]
    rfl
  · by_cases hlt : rs < re
    · rw [getProgramsForTimeRange_eq_filter _ _ _ _ hlt, h0]
      rfl
    · exact range_query_empty_of_not_lt _ id rs re hlt

/-- Witness of C15: channel 2 after the load of `test_data_epg_query.txt`, whose program is on
channel 1. -/
theorem unknown_channel_queries_empty_witness :
    getProgramsForChannel (parseDataFromFile utcHost Parser.empty (some epgQueryFile)).2 2 = []
    ∧ (∀ t : Int,
        getProgramsOnNow (parseDataFromFile utcHost Parser.empty (some epgQueryFile)).2 2 t = [])
    ∧ ∀ rs re : Int,
        getProgramsForTimeRange (parseDataFromFile utcHost Parser.empty (some epgQueryFile)).2 2
          rs re = [] :=
  unknown_channel_queries_empty utcHost Parser.empty epgQueryFile 2 (by decide)

/-- C16. Lines that are empty or start with `#` have no effect: two files whose other lines
are the same, in the same order, load to the same return value and the same state, so to the
same channels and the same programs for every identifier. -/
theorem skipped_lines_have_no_effect (h : Host) (p0 : Parser) (content1 content2 : Str)
    (hsame : (fileLines content1).filter (fun l => !isSkipped l)
      = (fileLines content2).filter (fun l => !isSkipped l)) :
    parseDataFromFile h p0 (some content1) = parseDataFromFile h p0 (some content2)
    ∧ getChannels (parseDataFromFile h p0 (some content1)).2
        = getChannels (parseDataFromFile h p0 (some content2)).2
    ∧ ∀ id : Int,
        getProgramsForChannel (parseDataFromFile h p0 (some content1)).2 id
          = getProgramsForChannel (parseDataFromFile h p0 (some content2)).2 id := by
  have e : parseDataFromFile h p0 (some content1) = parseDataFromFile h p0 (some content2) := by
    rw [parseDataFromFile_some, parseDataFromFile_some, foldl_storeRecord_filter h (fileLines content1),
      foldl_storeRecord_filter h (fileLines content2), hsame]
  exact ⟨e, by rw [e], fun id => by rw [e]⟩

/-- Witness of C16: a file of two records, and the same records among empty lines and
comments, one of which is `#CH|9|X`. -/
theorem skipped_lines_have_no_effect_witness :
    parseDataFromFile utcHost Parser.empty (some commentedFile)
        = parseDataFromFile utcHost Parser.empty (some plainFile)
    ∧ getChannels (parseDataFromFile utcHost Parser.empty (some commentedFile)).2
        = [⟨1, "Chan1".toList⟩] :=
  ⟨(skipped_lines_have_no_effect utcHost Parser.empty commentedFile plainFile (by decide)).1,
    by decide⟩

/-- C17. Lines are processed independently: when the lines of a file are the lines of a first
file followed by the lines of a second, its channels are the channels of the first followed by
those of the second, and for every identifier its programs are the programs of the first
followed by those of the second. -/
theorem lines_processed_independently (h : Host) (p0 : Parser) (first second both : Str)
    (hboth : fileLines both = fileLines first ++ fileLines second) :
    getChannels (parseDataFromFile h p0 (some both)).2
        = getChannels (parseDataFromFile h p0 (some first)).2
            ++ getChannels (parseDataFromFile h p0 (some second)).2
    ∧ ∀ id : Int,
        getProgramsForChannel (parseDataFromFile h p0 (some both)).2 id
          = getProgramsForChannel (parseDataFromFile h p0 (some first)).2 id
              ++ getProgramsForChannel (parseDataFromFile h p0 (some second)).2 id := by
  refine ⟨?_, fun id => ?_⟩
  · rw [load_channels, load_channels, load_channels, hboth, List.flatMap_append]
  · rw [load_programs, load_programs, load_programs, hboth, List.flatMap_append]

/-- Witness of C17: the file `test_data_valid_pg.txt` is its `CH` line followed by its `PG`
line, with the rejected line of `test_data_incomplete.txt` between them. -/
theorem lines_processed_independently_witness :
    getChannels (parseDataFromFile utcHost Parser.empty
        (some "CH|1|Chan1\nPG|1|102\nPG|1|101|2025-01-01 10:00:00|2025-01-01 11:00:00|Prog1|Desc1".toList)).2
      = getChannels (parseDataFromFile utcHost Parser.empty (some "CH|1|Chan1\nPG|1|102".toList)).2
          ++ getChannels (parseDataFromFile utcHost Parser.empty
              (some "PG|1|101|2025-01-01 10:00:00|2025-01-01 11:00:00|Prog1|Desc1".toList)).2 :=
  (lines_processed_independently utcHost Parser.empty "CH|1|Chan1\nPG|1|102".toList
    "PG|1|101|2025-01-01 10:00:00|2025-01-01 11:00:00|Prog1|Desc1".toList
    "CH|1|Chan1\nPG|1|102\nPG|1|101|2025-01-01 10:00:00|2025-01-01 11:00:00|Prog1|Desc1".toList
    (by decide)).1

/-- C11, counterexample. On a host one hour ahead of UTC the text `2025-01-01 10:00:00` comes
back as `2025-01-01 09:00:00`: `std::mktime` takes the fields as local time and `std::gmtime`
writes UTC. On a UTC host the text `1970-01-01 00:00:00` encodes to 0 and comes back as `N/A`;
the text `2025-01-01 10:00:60` comes back as `2025-01-01 10:01:00`; and with a clock that
ticks in nanoseconds the tick count of `2300-01-01 00:00:00` leaves the 64-bit range. -/
theorem decode_encode_not_identity :
    formatTime 1000000 (parseDateTimeString (zoneHost 3600) "2025-01-01 10:00:00".toList)
        = "2025-01-01 09:00:00".toList
    ∧ formatTime 1000000 (parseDateTimeString utcHost "1970-01-01 00:00:00".toList)
        = "N/A".toList
    ∧ formatTime 1000000 (parseDateTimeString utcHost "2025-01-01 10:00:60".toList)
        = "2025-01-01 10:01:00".toList
    ∧ formatTime 1000000 (parseDateTimeString utcHost "2300-01-01 00:00:00".toList)
        ≠ "2300-01-01 00:00:00".toList := by
  decide

/-- C11, amended. On a host whose local time zone is UTC, for every text `t` of the form
`YYYY-MM-DD HH:MM:SS` with a valid calendar date and time of day (seconds up to 59) whose
timestamp `encode(t)` is positive (`t` is after 1970-01-01 00:00:00) and fits, counted in ticks
of the system clock, in 64 bits: `decode(encode(t)) = t`. -/
theorem decode_encode_roundtrip (ticksPerMilli : Int) (y mo d hh mi ss : Nat)
    (hv : ValidDateTime y mo d hh mi ss)
    (hpos : 0 < parseDateTimeString utcHost (dateTimeText y mo d hh mi ss))
    (ht : 0 < ticksPerMilli)
    (hfit : parseDateTimeString utcHost (dateTimeText y mo d hh mi ss) * ticksPerMilli
      < 2 ^ 63) :
    formatTime ticksPerMilli (parseDateTimeString utcHost (dateTimeText y mo d hh mi ss))
      = dateTimeText y mo d hh mi ss := by
  have hd31 := day_le_31 y mo d hh mi ss hv
  have hciv := civil_roundtrip_valid y mo d hh mi ss hv
  rw [parse_dateTimeText y mo d hh mi ss hv] at hpos hfit ⊢
  obtain ⟨hy, hmo1, hmo2, hd1, _, hh2, hmi2, hss2⟩ := hv
  by_cases hy70 : y ≤ 1969
  · have hb := daysFromCivil_before_epoch y mo d (by omega) (by omega) (by omega) (by omega)
      (by omega) (by omega)
    split at hpos
    · omega
    · rw [wrapInt64_of_range _ (by norm_num; omega) (by norm_num; omega)] at hpos
      omega
  · have hb := daysFromCivil_bounds y mo d (by omega) (by omega) (by omega) (by omega)
      (by omega) (by omega)
    have hne : ¬ (daysFromCivil y mo d * 86400 + hh * 3600 + mi * 60 + ss = -1) := by omega
    rw [if_neg hne, wrapInt64_of_range _ (by norm_num; omega) (by norm_num; omega)]
      at hpos hfit ⊢
    rw [formatTime_of_seconds _ _ (by omega) ht hfit]
    have hsecs : daysFromCivil y mo d * 86400 + hh * 3600 + mi * 60 + ss
        = daysFromCivil y mo d * 86400 + ((hh : Int) * 3600 + mi * 60 + ss) := by ring
    rw [hsecs, gmtime_of_day _ _ y mo d hciv (by omega) (by omega) (by omega) (by omega)]
    have f1 : ((hh : Int) * 3600 + mi * 60 + ss) % 60 = ss := by omega
    have f2 : ((hh : Int) * 3600 + mi * 60 + ss) / 60 % 60 = mi := by omega
    have f3 : ((hh : Int) * 3600 + mi * 60 + ss) / 3600 = hh := by omega
    simp only [f1, f2, f3]
    exact put_time_dateTime y mo d hh mi ss (by omega) hy

/-- Witness of C11 (amended): the last second of a leap day, on a clock that ticks in
nanoseconds. -/
theorem decode_encode_roundtrip_witness :
    dateTimeText 2024 2 29 23 59 59 = "2024-02-29 23:59:59".toList
    ∧ formatTime 1000000 (parseDateTimeString utcHost (dateTimeText 2024 2 29 23 59 59))
        = dateTimeText 2024 2 29 23 59 59 :=
  ⟨by decide,
    decode_encode_roundtrip 1000000 2024 2 29 23 59 59 (by decide) (by decide) (by decide)
      (by decide)⟩

/-- C12, counterexample. Four texts whose timestamp is not the sentinel 0.
* `2025-01-01 10:00:00xyz` has extra characters after a well-formed date and time (no text of
  the form `YYYY-MM-DD HH:MM:SS` has 22 characters): `std::get_time` leaves them unread, and the
  timestamp is that of `2025-01-01 10:00:00`.
* `2025-01-01` lacks the time of day (no text of the form has 10 characters): at its end
  `std::get_time` stops with `eofbit` alone, the fields not read stay 0, and the timestamp is
  that of midnight.
* `2025-02-30 10:00:00` names a day February does not have: `std::get_time` takes any day up to
  31 and `std::mktime` counts on into March.
* `2025-01-01 10:00:60` has the second 60, which `std::get_time` takes, and `std::mktime`
  counts on into the next minute. -/
theorem inexact_text_not_sentinel :
    (∀ y mo d hh mi ss : Nat,
      dateTimeText y mo d hh mi ss ≠ "2025-01-01 10:00:00xyz".toList
        ∧ dateTimeText y mo d hh mi ss ≠ "2025-01-01".toList)
    ∧ parseDateTimeString utcHost "2025-01-01 10:00:00xyz".toList = 1735725600000
    ∧ parseDateTimeString utcHost "2025-01-01".toList = 1735689600000
    ∧ parseDateTimeString utcHost "2025-02-30 10:00:00".toList = 1740909600000
    ∧ parseDateTimeString utcHost "2025-01-01 10:00:60".toList = 1735725660000 := by
  refine ⟨fun y mo d hh mi ss => ⟨fun heq => ?_, fun heq => ?_⟩, by decide, by decide,
    by decide, by decide⟩
  · have hlen := congrArg List.length heq
    simp [dateTimeText, pad4, pad2] at hlen
  · have hlen := congrArg List.length heq
    simp [dateTimeText, pad4, pad2] at hlen

/-- C12, amended. With the `std::get_time` of the reference host and any `std::mktime`:
* `parseDateTimeString` returns the sentinel 0 for every text that is not read, and the texts
  read are exactly these: white space (possibly none), a year of one to four digits, then `-`
  and a month from 1 to 12, then `-` and a day from 1 to 31 (one white-space character may
  precede it), then an hour from 0 to 23 (white space may precede it), then `:` and a minute
  from 0 to 59, then `:` and a second from 0 to 60, then anything; the month, day, hour, minute
  and second have one or two digits, and the text may also end after any of the numbers;
* for a text that is read, the result is 0 when `std::mktime` returns -1 for the `std::tm` that
  was read, and else the `time_t` times 1000, as a `long long`;
* so the result is 0 for every text of the form `YYYY-MM-DD HH:MM:SS` whose month is not
  from 1 to 12, or day not from 1 to 31, or hour above 23, or minute above 59, or second
  above 60. -/
theorem parseDateTimeString_sentinel (mktime : Tm → Int) :
    (∀ s : Str, ¬ ReadsAsDateTime s → parseDateTimeString ⟨utcGetTime, mktime⟩ s = 0)
    ∧ (∀ s : Str, ReadsAsDateTime s → ∃ t : Tm, utcGetTime s = some t
        ∧ parseDateTimeString ⟨utcGetTime, mktime⟩ s
          = if mktime t = -1 then 0 else wrapInt64 (mktime t * 1000))
    ∧ (∀ y mo d hh mi ss : Nat, y ≤ 9999 → mo ≤ 99 → d ≤ 99 → hh ≤ 99 → mi ≤ 99 → ss ≤ 99 →
        ¬ (1 ≤ mo ∧ mo ≤ 12 ∧ 1 ≤ d ∧ d ≤ 31 ∧ hh ≤ 23 ∧ mi ≤ 59 ∧ ss ≤ 60) →
        parseDateTimeString ⟨utcGetTime, mktime⟩ (dateTimeText y mo d hh mi ss) = 0) := by
  refine ⟨fun s hno => ?_, fun s hr => ?_, fun y mo d hh mi ss hy hmo hd hh9 hmi hss hbad => ?_⟩
  · apply parseDateTimeString_of_get_time_none
    cases hu : utcGetTime s with
    | none => exact hu
    | some t => exact absurd (readsAsDateTime_of_utcGetTime s t hu) hno
  · obtain ⟨t, ht⟩ := utcGetTime_of_readsAsDateTime s hr
    exact ⟨t, ht, by simp only [parseDateTimeString, ht]⟩
  · apply parseDateTimeString_of_get_time_none
    exact utcGetTime_dateTimeText_none y mo d hh mi ss hy hmo hd hh9 hmi hss hbad

/-- Witness of C12 (amended), on the reference host: a text with `/` for `-` and a text with
`T` for the blank, which are not read; the last second of 1969, which is read and which
`std::mktime` converts to -1; and the text `2025-13-01 10:00:00`, whose month is 13. -/
theorem parseDateTimeString_sentinel_witness :
    parseDateTimeString utcHost "2025/01/01 10:00:00".toList = 0
    ∧ parseDateTimeString utcHost "2025-01-01T10:00:00".toList = 0
    ∧ (ReadsAsDateTime "1969-12-31 23:59:59".toList
      ∧ parseDateTimeString utcHost "1969-12-31 23:59:59".toList = 0)
    ∧ (dateTimeText 2025 13 1 10 0 0 = "2025-13-01 10:00:00".toList
      ∧ parseDateTimeString utcHost (dateTimeText 2025 13 1 10 0 0) = 0) := by
  have hr : ReadsAsDateTime "1969-12-31 23:59:59".toList :=
    (readsAsDateTime_iff _).mpr (by decide)
  refine ⟨(parseDateTimeString_sentinel utcMktime).1 _
      (fun hyes => absurd ((readsAsDateTime_iff _).mp hyes) (by decide)),
    (parseDateTimeString_sentinel utcMktime).1 _
      (fun hyes => absurd ((readsAsDateTime_iff _).mp hyes) (by decide)), ⟨hr, ?_⟩,
    ⟨by decide, (parseDateTimeString_sentinel utcMktime).2.2 2025 13 1 10 0 0 (by decide)
      (by decide) (by decide) (by decide) (by decide) (by decide) (by decide)⟩⟩
  obtain ⟨t, ht, hp⟩ := (parseDateTimeString_sentinel utcMktime).2.1 _ hr
  have ht2 : utcGetTime "1969-12-31 23:59:59".toList = some ⟨59, 59, 23, 31, 11, 69⟩ := by
    decide
  rw [ht2] at ht
  cases ht
  exact hp

/-- C21. The field count `partsRead` of the decoder is the number of `|`-separated pieces of
the line after its tag, an empty piece at the very end of the line not counted, capped at 2 in
the `CH` branch and at 6 in the `PG` branch; a record whose count is not the cap is not stored.
So `CH|<id>|` counts 1 and a `PG` line that ends with the `|` after its name counts 5, and both
are discarded, while `CH|<id>||<more>` counts 2 and is stored with the empty text as its name,
like a `PG` line whose name is empty and is followed by a description. -/
theorem partsRead_counts_fields (h : Host) (line : Str) (hne : line ≠ []) :
    partsReadCH (afterTag line) = min 2 (countedFields line)
    ∧ partsReadPG (afterTag line) = min 6 (countedFields line)
    ∧ (∀ (ss : IStream) (st : Parser), partsReadCH ss ≠ 2 → parseCH ss st = st)
    ∧ (∀ (ss : IStream) (st : Parser), partsReadPG ss ≠ 6 → parsePG h ss st = st)
    ∧ (∀ (st : Parser) (idField : Str), '|' ∉ idField →
        partsReadCH (afterTag (chLine idField [])) = 1
        ∧ parseRecord h st (chLine idField []) = st)
    ∧ (∀ (st : Parser) (c p s e name : Str),
        '|' ∉ c → '|' ∉ p → '|' ∉ s → '|' ∉ e → '|' ∉ name →
        partsReadPG (afterTag (pgLine c p s e name [])) = 5
        ∧ parseRecord h st (pgLine c p s e name []) = st)
    ∧ (∀ (st : Parser) (idField more : Str) (v : Int), '|' ∉ idField → stoi idField = some v →
        partsReadCH (afterTag (chLine idField ('|' :: more))) = 2
        ∧ parseRecord h st (chLine idField ('|' :: more))
            = { st with channels := st.channels ++ [⟨v, []⟩] })
    ∧ ∀ (st : Parser) (c p s e desc : Str) (cid pid : Int),
        '|' ∉ c → '|' ∉ p → '|' ∉ s → '|' ∉ e → '|' ∉ desc → desc ≠ [] →
        stoi c = some cid → stoi p = some pid → 0 < parseDateTimeString h s →
        parseDateTimeString h s < parseDateTimeString h e →
        partsReadPG (afterTag (pgLine c p s e [] desc)) = 6
        ∧ getProgramsForChannel (parseRecord h st (pgLine c p s e [] desc)) cid
            = getProgramsForChannel st cid
                ++ [⟨pid, [], desc, parseDateTimeString h s, parseDateTimeString h e⟩] := by
  refine ⟨?_, ?_, fun ss st hn => parseCH_of_partsRead ss st hn,
    fun ss st hn => parsePG_of_partsRead h ss st hn, fun st idField hi => ⟨?_, ?_⟩,
    fun st c p s e name hc hp hs he hn => ⟨?_, ?_⟩,
    fun st idField more v hi hv => ⟨?_, ?_⟩,
    fun st c p s e desc cid pid hc hp hs he hd hdne hcid hpid hpos hlt => ⟨?_, ?_⟩⟩
  · rw [partsReadCH_of_yields _ _ (yields_afterTag line), pieces_tail_length line hne]
  · rw [partsReadPG_of_yields _ _ (yields_afterTag line), pieces_tail_length line hne]
  · rw [partsReadCH_of_yields _ _ (yields_afterTag _), pieces_chLine _ _ hi]
    simp [pieces]
  · rw [parseRecord_eq, storeRecord_chLine h st idField [] hi]
    simp [pieces, storeCH]
  · rw [partsReadPG_of_yields _ _ (yields_afterTag _), pieces_pgLine _ _ _ _ _ _ hc hp hs he hn]
    simp [pieces]
  · rw [parseRecord_eq, storeRecord_pgLine h st c p s e name [] hc hp hs he hn]
    simp [pieces, storePG]
  · rw [partsReadCH_of_yields _ _ (yields_afterTag _), pieces_chLine _ _ hi]
    simp [pieces]
  · rw [parseRecord_eq, storeRecord_chLine h st idField _ hi]
    simp [pieces, storeCH, hv]
  · rw [partsReadPG_of_yields _ _ (yields_afterTag _),
      pieces_pgLine _ _ _ _ _ _ hc hp hs he (List.not_mem_nil _), pieces_no_delim _ _ hd hdne]
    simp
  · rw [parseRecord_eq, storeRecord_pgLine h st c p s e [] desc hc hp hs he (List.not_mem_nil _),
      pieces_no_delim _ _ hd hdne, storePG_full h st c p s e [] desc cid pid hcid hpid hpos hlt,
      getProgramsForChannel_pushBack_same]

/-- Witness of C21: the line `CH|7|` counts one field and is discarded, the line `CH|7||x`
counts two and stores channel 7 with the empty name; a `PG` line that ends with the `|` after
its name is discarded, and a `PG` line with an empty name before its description is stored. -/
theorem partsRead_counts_fields_witness :
    partsReadCH (afterTag "CH|7|".toList) = min 2 (countedFields "CH|7|".toList)
    ∧ countedFields "CH|7|".toList = 1
    ∧ parseRecord utcHost Parser.empty (chLine "7".toList []) = Parser.empty
    ∧ parseRecord utcHost Parser.empty (chLine "7".toList "|x".toList)
        = { Parser.empty with channels := Parser.empty.channels ++ [⟨7, []⟩] }
    ∧ parseRecord utcHost Parser.empty
        (pgLine "1".toList "101".toList "2025-01-01 10:00:00".toList
          "2025-01-01 11:00:00".toList "Prog1".toList []) = Parser.empty
    ∧ getProgramsForChannel
        (parseRecord utcHost Parser.empty
          (pgLine "1".toList "101".toList "2025-01-01 10:00:00".toList
            "2025-01-01 11:00:00".toList [] "Desc1".toList)) 1
        = getProgramsForChannel Parser.empty 1
            ++ [⟨101, [], "Desc1".toList,
                parseDateTimeString utcHost "2025-01-01 10:00:00".toList,
                parseDateTimeString utcHost "2025-01-01 11:00:00".toList⟩] :=
  ⟨(partsRead_counts_fields utcHost "CH|7|".toList (by decide)).1, by decide,
    ((partsRead_counts_fields utcHost "CH|7|".toList (by decide)).2.2.2.2.1 Parser.empty
      "7".toList (by decide)).2,
    ((partsRead_counts_fields utcHost "CH|7|".toList (by decide)).2.2.2.2.2.2.1 Parser.empty
      "7".toList "x".toList 7 (by decide) (by decide)).2,
    ((partsRead_counts_fields utcHost "CH|7|".toList (by decide)).2.2.2.2.2.1 Parser.empty
      "1".toList "101".toList "2025-01-01 10:00:00".toList "2025-01-01 11:00:00".toList
      "Prog1".toList (by decide) (by decide) (by decide) (by decide) (by decide)).2,
    ((partsRead_counts_fields utcHost "CH|7|".toList (by decide)).2.2.2.2.2.2.2 Parser.empty
      "1".toList "101".toList "2025-01-01 10:00:00".toList "2025-01-01 11:00:00".toList
      "Desc1".toList 1 101 (by decide) (by decide) (by decide) (by decide) (by decide)
      (by decide) (by decide) (by decide) (by decide) (by decide)).2⟩

end MiddlewareSimulator
